import Mathlib

/-!
Verification of the VRM texture optimizer (`vrm_optimizer.py`).

The development shallowly embeds the program's data model and operations:

* the binary payload is a `List Nat` of bytes (`Blob`);
* `pad4`, `listSlice` model `pad4` and Python slicing;
* `BufferView`, `Buffer`, `Image`, `Material`, `Texture`, `GLTF` model the
  pygltflib objects, with optional fields as `Option`;
* `rebuild_blob_with_replacements` models the function of the same name: it
  returns the (possibly mutated) container together with either the rebuilt
  payload or the structural error raised.  Mutation of the live container is
  made explicit by returning the new container even on the error path;
* `get_normal_texture_image_indices`, `classify_image`, `processImagesLoop`,
  `optimize_vrm_core` model the classification and per-image re-encoding
  pipeline of `optimize_vrm_file`, with the external image codec abstracted
  as `decode : Blob → Option Pix` and `encode : Pix → Nat → Nat → Blob`;
* `candidate_settings_for_target` models `_candidate_settings_for_target`;
* `optimize_vrm_to_target` models the target-size search loop, with the file
  system made explicit as a map from paths to blobs so that the interaction
  between attempts through the output file is visible.
-/

set_option maxHeartbeats 1000000

namespace VrmOpt

/-- A binary payload: a sequence of bytes. -/
abbrev Blob := List Nat

/-- `pad4(data)`: append zero bytes up to the next multiple of 4
(`data + b"\x00" * ((4 - (len(data) % 4)) % 4)`). -/
def pad4 (data : Blob) : Blob :=
  data ++ List.replicate ((4 - data.length % 4) % 4) 0

/-- Python slice `l[a:b]` for `0 ≤ a, b` (clamps at the end of the list). -/
def listSlice (l : Blob) (a b : Nat) : Blob :=
  (l.take b).drop a

/-- A bufferView: a byte region of the payload.  `byteOffset` and
`byteLength` are optional in pygltflib; the code reads them as
`bv.byteOffset or 0` / `bv.byteLength or 0`. -/
structure BufferView where
  byteOffset : Option Nat
  byteLength : Option Nat
deriving Repr, DecidableEq

/-- A buffer descriptor; only `byteLength` is relevant to the code. -/
structure Buffer where
  byteLength : Nat
deriving Repr, DecidableEq

/-- An image: optional region reference, name and MIME type. -/
structure Image where
  bufferView : Option Nat
  name : Option String
  mimeType : Option String
deriving Repr, DecidableEq

/-- A material's `normalTexture` reference (`nt.index`). -/
structure NormalTextureInfo where
  index : Option Nat
deriving Repr, DecidableEq

/-- A material; only the normal-map texture reference is relevant. -/
structure Material where
  normalTexture : Option NormalTextureInfo
deriving Repr, DecidableEq

/-- A texture; `source` is the image index it references. -/
structure Texture where
  source : Option Nat
deriving Repr, DecidableEq

/-- The container structure section (the parts of `GLTF2` the code uses). -/
structure GLTF where
  bufferViews : List BufferView
  buffers : List Buffer
  images : List Image
  materials : List Material
  textures : List Texture
deriving Repr, DecidableEq

/-- `bvs[i]` with an inert default (all call sites keep `i` in range). -/
def bvAt (bvs : List BufferView) (i : Nat) : BufferView :=
  (bvs[i]?).getD ⟨none, none⟩

/-- `bvs[i].byteOffset or 0`. -/
def offAt (bvs : List BufferView) (i : Nat) : Nat :=
  (bvAt bvs i).byteOffset.getD 0

/-- `bvs[i].byteLength or 0`. -/
def lnAt (bvs : List BufferView) (i : Nat) : Nat :=
  (bvAt bvs i).byteLength.getD 0

/-- `sorted(range(len(bvs)), key=lambda i: (bvs[i].byteOffset or 0))`.
Python's `sorted` is a stable sort; a stable insertion sort on the total
order of offsets computes the same list. -/
def sortIndices (bvs : List BufferView) : List Nat :=
  List.insertionSort (fun i j => offAt bvs i ≤ offAt bvs j) (List.range bvs.length)

/-- The mutable state of the rebuild loop: the (mutated) region table, the
output payload built so far, and the read cursor. -/
structure RebuildState where
  bvs : List BufferView
  nb : Blob
  cursor : Nat
deriving Repr, DecidableEq

/-- One iteration of the `for i in order` loop of
`rebuild_blob_with_replacements` (lines 56-77 of the source). -/
def rebuildStep (blob : Blob) (repl : List (Nat × Blob)) (i : Nat)
    (st : RebuildState) : RebuildState :=
  let off := offAt st.bvs i
  let ln := lnAt st.bvs i
  let nb1 := if st.cursor < off then st.nb ++ listSlice blob st.cursor off else st.nb
  match repl.lookup i with
  | some data =>
      ⟨st.bvs.set i ⟨some nb1.length, some data.length⟩, nb1 ++ pad4 data, off + ln⟩
  | none =>
      ⟨st.bvs.set i ⟨some nb1.length, some ln⟩,
        nb1 ++ pad4 (listSlice blob off (off + ln)), off + ln⟩

/-- The `for i in order` loop. -/
def rebuildLoop (blob : Blob) (repl : List (Nat × Blob)) :
    List Nat → RebuildState → RebuildState
  | [], st => st
  | i :: rest, st => rebuildLoop blob repl rest (rebuildStep blob repl i st)

/-- `rebuild_blob_with_replacements(gltf, original_blob, replacements)`.
The replacement dict is an association list whose most recent binding for a
key comes first (`List.lookup` finds it first, matching dict lookup).
The returned container reflects every in-place mutation performed before the
function returned or raised; the second component is the returned payload or
the error raised. -/
def rebuild_blob_with_replacements (gltf : GLTF) (original_blob : Blob)
    (replacements : List (Nat × Blob)) : GLTF × Except String Blob :=
  if gltf.bufferViews = [] then (gltf, Except.error "No bufferViews found.")
  else
    let order := sortIndices gltf.bufferViews
    let st := rebuildLoop original_blob replacements order ⟨gltf.bufferViews, [], 0⟩
    let new_blob :=
      if st.cursor < original_blob.length then st.nb ++ original_blob.drop st.cursor
      else st.nb
    let gltf1 := { gltf with bufferViews := st.bvs }
    match gltf.buffers with
    | [] => (gltf1, Except.error "No buffers found.")
    | b :: bs =>
        ({ gltf1 with buffers := { b with byteLength := new_blob.length } :: bs },
          Except.ok new_blob)

/-- `get_normal_texture_image_indices(gltf)`: the set of image indices
reachable through some material's normal-map texture reference, as a list
(membership is what the code consumes). -/
def get_normal_texture_image_indices (gltf : GLTF) : List Nat :=
  if gltf.materials = [] then []
  else
    let normal_tex_indices :=
      gltf.materials.filterMap (fun m => m.normalTexture.bind (fun nt => nt.index))
    if gltf.textures = [] then []
    else
      normal_tex_indices.filterMap (fun t_idx =>
        if h : t_idx < gltf.textures.length then (gltf.textures.get ⟨t_idx, h⟩).source
        else none)

/-- `name.lower()` (character-wise lowering of the name). -/
def strLower (s : String) : String :=
  String.mk (s.data.map Char.toLower)

/-- Python's substring test `sub in s`. -/
def strContainsSub (s sub : String) : Bool :=
  (List.range (s.data.length + 1)).any (fun k => sub.data.isPrefixOf (s.data.drop k))

/-- The image classes of the optimizer. -/
inductive ImgClass where
  | Thumbnail
  | NormalMap
  | General
deriving Repr, DecidableEq

/-- The classification branch of `optimize_vrm_file` (lines 130-142):
`is_thumb` first, `is_normal` second, general as fallback. -/
def classify_image (gltf : GLTF) (img_index : Nat) (img : Image) : ImgClass :=
  let name := strLower (img.name.getD "")
  if strContainsSub name "thumbnail" then ImgClass.Thumbnail
  else if img_index ∈ get_normal_texture_image_indices gltf then ImgClass.NormalMap
  else ImgClass.General

/-- A settings record: the six per-class parameters of `optimize_vrm_file`
and also the shape of each candidate dict of the search. -/
structure OptSettings where
  max_size : Nat
  webp_quality : Nat
  thumb_max : Nat
  thumb_quality : Nat
  normal_max : Nat
  normal_quality : Nat
deriving Repr, DecidableEq

/-- The `(limit, quality)` pair selected for an image class. -/
def class_limit_quality (params : OptSettings) : ImgClass → Nat × Nat
  | ImgClass.Thumbnail => (params.thumb_max, params.thumb_quality)
  | ImgClass.NormalMap => (params.normal_max, params.normal_quality)
  | ImgClass.General => (params.max_size, params.webp_quality)

/-- The per-image loop of `optimize_vrm_file` (lines 113-160).  The external
image codec is abstracted: `decode raw = none` models a decode failure
(`Image.open`/`load` raising), and `encode pix limit quality` models the
resize-and-save-to-WebP step.  An out-of-range `bufferView` index models the
`IndexError` Python would raise.  Returns the updated image list and the
replacement dict (most recent binding first). -/
def processImagesLoop {Pix : Type} (decode : Blob → Option Pix)
    (encode : Pix → Nat → Nat → Blob) (gltf : GLTF) (blob : Blob)
    (params : OptSettings) :
    Nat → List Image → List (Nat × Blob) →
    Except String (List Image × List (Nat × Blob))
  | _, [], repl => Except.ok ([], repl)
  | img_index, img :: rest, repl =>
    match img.bufferView with
    | none =>
        match processImagesLoop decode encode gltf blob params (img_index + 1) rest repl with
        | Except.error e => Except.error e
        | Except.ok (l, r) => Except.ok (img :: l, r)
    | some bv_index =>
        if bv_index < gltf.bufferViews.length then
          let off := offAt gltf.bufferViews bv_index
          let ln := lnAt gltf.bufferViews bv_index
          let raw := listSlice blob off (off + ln)
          match decode raw with
          | none =>
              match processImagesLoop decode encode gltf blob params (img_index + 1) rest repl with
              | Except.error e => Except.error e
              | Except.ok (l, r) => Except.ok (img :: l, r)
          | some pix =>
              let lq := class_limit_quality params (classify_image gltf img_index img)
              let new_bytes := encode pix lq.1 lq.2
              match processImagesLoop decode encode gltf blob params (img_index + 1) rest
                  ((bv_index, new_bytes) :: repl) with
              | Except.error e => Except.error e
              | Except.ok (l, r) =>
                  Except.ok ({ img with mimeType := some "image/webp" } :: l, r)
        else Except.error "IndexError: bufferView index out of range"

/-- The in-memory part of `optimize_vrm_file` (lines 99-164): fail if the
container declares no images, re-encode each image, rebuild the blob.
File loading/saving and logging are external. -/
def optimize_vrm_core {Pix : Type} (decode : Blob → Option Pix)
    (encode : Pix → Nat → Nat → Blob) (gltf : GLTF) (blob : Blob)
    (params : OptSettings) : Except String (GLTF × Blob) :=
  if gltf.images = [] then Except.error "No images found in the model."
  else
    match processImagesLoop decode encode gltf blob params 0 gltf.images [] with
    | Except.error e => Except.error e
    | Except.ok (imgs, repl) =>
        match rebuild_blob_with_replacements { gltf with images := imgs } blob repl with
        | (_, Except.error e) => Except.error e
        | (g2, Except.ok nb) => Except.ok (g2, nb)

/-- First-occurrence de-duplication, as the
`[s for s in steps if not (s in seen or seen.add(s))]` idiom computes. -/
def dedupFirst : List Nat → List Nat :=
  go []
where
  go (seen : List Nat) : List Nat → List Nat
    | [] => []
    | x :: xs => if x ∈ seen then go seen xs else x :: go (x :: seen) xs

/-- `_candidate_settings_for_target(...)` (lines 175-230), with the lazy
generator materialized as the finite list it yields. -/
def candidate_settings_for_target (start_max_size start_webp_quality
    start_thumb_max start_thumb_quality start_normal_max start_normal_quality : Nat) :
    List OptSettings :=
  let size_steps := [start_max_size, 448, 384, 320, 256]
  let size_steps := size_steps.filter (fun s => decide (s ≤ start_max_size ∧ 128 ≤ s))
  let size_steps := dedupFirst size_steps
  let quality_steps := [start_webp_quality, min 65 start_webp_quality, 60, 55, 50, 45]
  let quality_steps :=
    quality_steps.filter (fun q => decide (10 ≤ q ∧ q ≤ start_webp_quality))
  let quality_steps := dedupFirst quality_steps
  size_steps.flatMap (fun s =>
    quality_steps.map (fun q =>
      { max_size := s
        webp_quality := q
        thumb_max := min start_thumb_max (max 256 s)
        thumb_quality := min start_thumb_quality (max 30 (q - 10))
        normal_max := min start_normal_max s
        normal_quality := min start_normal_quality (max 40 (q + 5)) }))

/-- A file system: contents of each path (paths are numbered). -/
def writeFS (fs : Nat → Blob) (p : Nat) (b : Blob) : Nat → Blob :=
  fun q => if q = p then b else fs q

/-- The report the search loop prints at the end: success at a candidate, or
exhaustion with the best (smallest) observed size and its settings. -/
inductive SearchOutcome where
  | hit (cfg : OptSettings) (size : Nat)
  | exhausted (best : Option (Nat × OptSettings))
deriving Repr, DecidableEq

/-- `if best_size is None or out_size < best_size: ...` (lines 286-288). -/
def updateBest (out_size : Nat) (cfg : OptSettings) :
    Option (Nat × OptSettings) → Option (Nat × OptSettings)
  | none => some (out_size, cfg)
  | some (bs, bc) => if out_size < bs then some (out_size, cfg) else some (bs, bc)

/-- The attempt loop of `optimize_vrm_to_target` (lines 255-300).  Each
attempt loads `inP`, runs the (abstracted, pure) per-attempt pipeline of
`optimize_vrm_file`, and writes the result to `outP`; `out_size` is the size
of the just-written output file. -/
def optimize_vrm_to_target_go (pipeline : Blob → OptSettings → Blob)
    (inP outP target_bytes max_attempts : Nat) :
    List OptSettings → Nat → Option (Nat × OptSettings) → (Nat → Blob) →
    SearchOutcome × (Nat → Blob)
  | [], _, best, fs => (SearchOutcome.exhausted best, fs)
  | cfg :: rest, attempts, best, fs =>
      if max_attempts < attempts + 1 then (SearchOutcome.exhausted best, fs)
      else
        let fs1 := writeFS fs outP (pipeline (fs inP) cfg)
        let out_size := (fs1 outP).length
        let best1 := updateBest out_size cfg best
        if out_size ≤ target_bytes then (SearchOutcome.hit cfg out_size, fs1)
        else optimize_vrm_to_target_go pipeline inP outP target_bytes max_attempts
          rest (attempts + 1) best1 fs1

/-- `optimize_vrm_to_target`: run the attempt loop over the candidate list
from a zeroed attempt counter and no best yet. -/
def optimize_vrm_to_target (pipeline : Blob → OptSettings → Blob)
    (inP outP target_bytes max_attempts : Nat) (cfgs : List OptSettings)
    (fs : Nat → Blob) : SearchOutcome × (Nat → Blob) :=
  optimize_vrm_to_target_go pipeline inP outP target_bytes max_attempts cfgs 0 none fs

/-- The best (smallest observed size) tracker folded over a list of
candidates, mirroring the update the attempt loop performs. -/
def bestOf (sizeFn : OptSettings → Nat) :
    Option (Nat × OptSettings) → List OptSettings → Option (Nat × OptSettings)
  | best, [] => best
  | best, c :: rest => bestOf sizeFn (updateBest (sizeFn c) c best) rest

/-- Project the rebuilt payload out of a rebuild result (empty on error). -/
def rebuiltBlobOf (gltf : GLTF) (blob : Blob) (repl : List (Nat × Blob)) : Blob :=
  match (rebuild_blob_with_replacements gltf blob repl).2 with
  | Except.ok nb => nb
  | Except.error _ => []

/-- The original end of region `i`: one past its last byte. -/
def endAt (bvs : List BufferView) (i : Nat) : Nat :=
  offAt bvs i + lnAt bvs i

/-- A concrete container for the C1 witness: two regions `[0,2)` and `[4,6)`
with a two-byte gap, region 0 replaced by a single byte. -/
def gltfC1w : GLTF := ⟨[⟨some 0, some 2⟩, ⟨some 4, some 2⟩], [⟨0⟩], [], [], []⟩

/-- Original payload for the C1 witness. -/
def blobC1w : Blob := [1, 2, 3, 4, 5, 6, 7, 8]

/-- Container after the C1 witness rebuild. -/
def gltfC1w' : GLTF := ⟨[⟨some 0, some 1⟩, ⟨some 6, some 2⟩], [⟨12⟩], [], [], []⟩

/-- Payload after the C1 witness rebuild. -/
def nbC1w : Blob := [9, 0, 0, 0, 3, 4, 5, 6, 0, 0, 7, 8]

/-- Alignment precondition for the rebuilt offsets: walking the processing
order with the read cursor, every region either starts at or before the
cursor or leaves a gap whose length is a multiple of 4 (the initial cursor
is 0, so the first region's offset must be a multiple of 4). -/
def gapsAligned (bvs : List BufferView) : Nat → List Nat → Bool
  | _, [] => true
  | cursor, i :: rest =>
      (decide (offAt bvs i ≤ cursor) || decide ((offAt bvs i - cursor) % 4 = 0)) &&
      gapsAligned bvs (offAt bvs i + lnAt bvs i) rest

/-- C2 counterexample container: two non-overlapping one-byte regions with a
one-byte gap between them. -/
def gltfC2cex : GLTF := ⟨[⟨some 0, some 1⟩, ⟨some 2, some 1⟩], [⟨0⟩], [], [], []⟩

/-- C2 witness container: regions `[0,4)` and `[8,10)` with a 4-byte gap. -/
def gltfC2w : GLTF := ⟨[⟨some 0, some 4⟩, ⟨some 8, some 2⟩], [⟨0⟩], [], [], []⟩

/-- Scenario A container: 3 regions of lengths 10, 7, 5 at offsets 0, 16, 32. -/
def gltfA : GLTF :=
  ⟨[⟨some 0, some 10⟩, ⟨some 16, some 7⟩, ⟨some 32, some 5⟩], [⟨0⟩], [], [], []⟩

/-- Scenario A payload: 37 distinct bytes. -/
def blobA : Blob := List.range 37

/-- Scenario A replacements: region 1 replaced by 3 new bytes. -/
def replA : List (Nat × Blob) := [(1, [9, 9, 9])]

/-- Scenario A rebuild result. -/
def rebuiltA : GLTF × Except String Blob :=
  rebuild_blob_with_replacements gltfA blobA replA

/-- Scenario A rebuilt payload. -/
def nbA : Blob :=
  match rebuiltA.2 with
  | Except.ok nb => nb
  | Except.error _ => []

/-- C9 witness container: one region, no buffer descriptor. -/
def gltfC9w : GLTF := ⟨[⟨some 4, some 2⟩], [], [], [], []⟩

/-- C8 witness container: one image referencing the single region `[0,2)`. -/
def gltfC8w : GLTF :=
  ⟨[⟨some 0, some 2⟩], [⟨0⟩], [⟨some 0, some "img", some "image/png"⟩], [], []⟩

/-- C8 witness container after the rebuild (region untouched, buffer length
updated to 5). -/
def gltfC8w' : GLTF :=
  ⟨[⟨some 0, some 2⟩], [⟨5⟩], [⟨some 0, some "img", some "image/png"⟩], [], []⟩

/-- C8 witness rebuilt payload: the region `[5, 6]` padded to 4 bytes plus
the trailing byte 7. -/
def nbC8w : Blob := [5, 6, 0, 0, 7]

/-- C10 witness container with no images at all. -/
def gltfC10a : GLTF := ⟨[], [], [], [], []⟩

/-- C10 witness container whose single image has no region reference. -/
def gltfC10b : GLTF := ⟨[], [], [⟨none, some "pic", some "image/png"⟩], [], []⟩

/-! ### Basic lemmas about slices, padding and appending -/

theorem listSlice_length (l : Blob) (a b : Nat) :
    (listSlice l a b).length = min b l.length - a := by
  simp [listSlice]

theorem listSlice_getElem? (l : Blob) (a b k : Nat) (h : a + k < b) :
    (listSlice l a b)[k]? = l[a + k]? := by
  rw [listSlice, List.getElem?_drop]
  exact List.getElem?_take_of_lt h

theorem pad4_length_mod (d : Blob) : (pad4 d).length % 4 = 0 := by
  simp only [pad4, List.length_append, List.length_replicate]
  omega

theorem length_le_pad4_length (d : Blob) : d.length ≤ (pad4 d).length := by
  simp [pad4]

theorem pad4_getElem? (d : Blob) (k : Nat) (h : k < d.length) :
    (pad4 d)[k]? = d[k]? :=
  List.getElem?_append_left h

theorem getElem?_isSome_lt {l : Blob} {q : Nat} (h : (l[q]?).isSome) :
    q < l.length := by
  by_contra hq
  rw [List.getElem?_eq_none (by omega)] at h
  simp at h

/-- Appending on the right preserves every defined entry. -/
theorem getElem?_append_ext {l : Blob} (t : Blob) {q x : Nat}
    (h : l[q]? = some x) : (l ++ t)[q]? = some x := by
  have hq : q < l.length := getElem?_isSome_lt (by rw [h]; rfl)
  rw [List.getElem?_append_left hq, h]

/-! ### Structure of one rebuild step and of the rebuild loop -/

theorem rebuildStep_cursor (blob : Blob) (repl : List (Nat × Blob)) (i : Nat)
    (st : RebuildState) :
    (rebuildStep blob repl i st).cursor = endAt st.bvs i := by
  unfold rebuildStep endAt
  cases repl.lookup i <;> rfl

theorem rebuildStep_nb_mono (blob : Blob) (repl : List (Nat × Blob)) (i : Nat)
    (st : RebuildState) :
    ∃ t, (rebuildStep blob repl i st).nb = st.nb ++ t := by
  unfold rebuildStep
  cases repl.lookup i <;> dsimp only [] <;> split
  · exact ⟨_, (List.append_assoc _ _ _)⟩
  · exact ⟨_, rfl⟩
  · exact ⟨_, (List.append_assoc _ _ _)⟩
  · exact ⟨_, rfl⟩

theorem rebuildStep_bvs_length (blob : Blob) (repl : List (Nat × Blob)) (i : Nat)
    (st : RebuildState) :
    (rebuildStep blob repl i st).bvs.length = st.bvs.length := by
  unfold rebuildStep
  cases repl.lookup i <;> simp

theorem rebuildStep_bvs_ne (blob : Blob) (repl : List (Nat × Blob)) {i j : Nat}
    (st : RebuildState) (h : i ≠ j) :
    (rebuildStep blob repl i st).bvs[j]? = st.bvs[j]? := by
  unfold rebuildStep
  cases repl.lookup i <;> dsimp only [] <;> exact List.getElem?_set_ne h

theorem offAt_congr {bvs bvs' : List BufferView} {j : Nat}
    (h : bvs[j]? = bvs'[j]?) : offAt bvs j = offAt bvs' j := by
  simp [offAt, bvAt, h]

theorem lnAt_congr {bvs bvs' : List BufferView} {j : Nat}
    (h : bvs[j]? = bvs'[j]?) : lnAt bvs j = lnAt bvs' j := by
  simp [lnAt, bvAt, h]

theorem rebuildLoop_nb_mono (blob : Blob) (repl : List (Nat × Blob)) :
    ∀ (order : List Nat) (st : RebuildState),
    ∃ t, (rebuildLoop blob repl order st).nb = st.nb ++ t := by
  intro order
  induction order with
  | nil => exact fun st => ⟨[], by simp [rebuildLoop]⟩
  | cons i rest ih =>
    intro st
    obtain ⟨t1, h1⟩ := rebuildStep_nb_mono blob repl i st
    obtain ⟨t2, h2⟩ := ih (rebuildStep blob repl i st)
    exact ⟨t1 ++ t2, by rw [rebuildLoop, h2, h1, List.append_assoc]⟩

theorem rebuildLoop_nb_ext (blob : Blob) (repl : List (Nat × Blob))
    (order : List Nat) (st : RebuildState) {q x : Nat}
    (h : st.nb[q]? = some x) :
    (rebuildLoop blob repl order st).nb[q]? = some x := by
  obtain ⟨t, ht⟩ := rebuildLoop_nb_mono blob repl order st
  rw [ht]
  exact getElem?_append_ext t h

theorem rebuildLoop_bvs_length (blob : Blob) (repl : List (Nat × Blob)) :
    ∀ (order : List Nat) (st : RebuildState),
    (rebuildLoop blob repl order st).bvs.length = st.bvs.length := by
  intro order
  induction order with
  | nil => intro st; rfl
  | cons i rest ih =>
    intro st
    rw [rebuildLoop, ih, rebuildStep_bvs_length]

theorem rebuildLoop_bvs_not_mem (blob : Blob) (repl : List (Nat × Blob)) :
    ∀ (order : List Nat) (st : RebuildState) (j : Nat), j ∉ order →
    (rebuildLoop blob repl order st).bvs[j]? = st.bvs[j]? := by
  intro order
  induction order with
  | nil => intro st j _; rfl
  | cons i rest ih =>
    intro st j hj
    have hij : i ≠ j := fun h => hj (h ▸ List.mem_cons_self i rest)
    rw [rebuildLoop, ih _ j (fun h => hj (List.mem_cons_of_mem i h)),
      rebuildStep_bvs_ne blob repl st hij]

/-! ### The sorted processing order -/

theorem sortIndices_nodup (bvs : List BufferView) : (sortIndices bvs).Nodup :=
  (List.perm_insertionSort _ _).symm.nodup (List.nodup_range bvs.length)

theorem mem_sortIndices {bvs : List BufferView} {i : Nat} :
    i ∈ sortIndices bvs ↔ i < bvs.length := by
  rw [sortIndices, (List.perm_insertionSort _ _).mem_iff, List.mem_range]

/-! ### Unfolding equations for the two branches of a rebuild step -/

theorem rebuildStep_eq_some {repl : List (Nat × Blob)} {i : Nat} {data : Blob}
    (blob : Blob) (st : RebuildState) (hl : repl.lookup i = some data) :
    rebuildStep blob repl i st =
      ⟨st.bvs.set i
          ⟨some (if st.cursor < offAt st.bvs i then
              st.nb ++ listSlice blob st.cursor (offAt st.bvs i) else st.nb).length,
            some data.length⟩,
        (if st.cursor < offAt st.bvs i then
            st.nb ++ listSlice blob st.cursor (offAt st.bvs i) else st.nb) ++ pad4 data,
        offAt st.bvs i + lnAt st.bvs i⟩ := by
  unfold rebuildStep
  rw [hl]

theorem rebuildStep_eq_none {repl : List (Nat × Blob)} {i : Nat}
    (blob : Blob) (st : RebuildState) (hl : repl.lookup i = none) :
    rebuildStep blob repl i st =
      ⟨st.bvs.set i
          ⟨some (if st.cursor < offAt st.bvs i then
              st.nb ++ listSlice blob st.cursor (offAt st.bvs i) else st.nb).length,
            some (lnAt st.bvs i)⟩,
        (if st.cursor < offAt st.bvs i then
            st.nb ++ listSlice blob st.cursor (offAt st.bvs i) else st.nb) ++
          pad4 (listSlice blob (offAt st.bvs i) (offAt st.bvs i + lnAt st.bvs i)),
        offAt st.bvs i + lnAt st.bvs i⟩ := by
  unfold rebuildStep
  rw [hl]

/-! ### Every byte outside a replaced region survives the rebuild -/

/-- The gap copy: a byte between the cursor and the next region's offset is
copied into the output verbatim. -/
theorem gap_byte_covered (blob : Blob) (st : RebuildState) (off p : Nat)
    (hc : st.cursor ≤ p) (hpoff : p < off) :
    ((st.nb ++ listSlice blob st.cursor off))[st.nb.length + (p - st.cursor)]? =
      blob[p]? := by
  rw [List.getElem?_append_right (by omega)]
  have harith : st.nb.length + (p - st.cursor) - st.nb.length = p - st.cursor := by omega
  rw [harith, listSlice_getElem? blob st.cursor off _ (by omega)]
  have : st.cursor + (p - st.cursor) = p := by omega
  rw [this]

/-- One step of the rebuild loop keeps every byte below the new cursor that
is not inside region `i`'s replaced range covered by the output. -/
theorem rebuildStep_covers (blob : Blob) (repl : List (Nat × Blob)) (i : Nat)
    (st : RebuildState) (p : Nat) (hp : p < blob.length)
    (hfree : (repl.lookup i).isSome = true →
        ¬ (offAt st.bvs i ≤ p ∧ p < offAt st.bvs i + lnAt st.bvs i))
    (hstart : p < st.cursor → ∃ q : Nat, st.nb[q]? = blob[p]?) :
    p < (rebuildStep blob repl i st).cursor →
    ∃ q : Nat, (rebuildStep blob repl i st).nb[q]? = blob[p]? := by
  intro hplt
  rw [rebuildStep_cursor] at hplt
  unfold endAt at hplt
  have hpsome : blob[p]? = some (blob.get ⟨p, hp⟩) := List.getElem?_eq_getElem hp
  by_cases hc : p < st.cursor
  · obtain ⟨q, hq⟩ := hstart hc
    obtain ⟨t, ht⟩ := rebuildStep_nb_mono blob repl i st
    refine ⟨q, ?_⟩
    rw [ht, getElem?_append_ext t (hq.trans hpsome)]
    exact hpsome.symm
  · push_neg at hc
    cases hl : repl.lookup i with
    | some data =>
      have hfree' := hfree (by rw [hl]; rfl)
      have hpoff : p < offAt st.bvs i := by
        rcases Nat.lt_or_ge p (offAt st.bvs i) with h | h
        · exact h
        · exact absurd ⟨h, hplt⟩ hfree'
      have hcur : st.cursor < offAt st.bvs i := lt_of_le_of_lt hc hpoff
      rw [rebuildStep_eq_some blob st hl]
      dsimp only
      rw [if_pos hcur]
      refine ⟨st.nb.length + (p - st.cursor), ?_⟩
      have h1 := gap_byte_covered blob st (offAt st.bvs i) p hc hpoff
      rw [getElem?_append_ext (pad4 data) (h1.trans hpsome)]
      exact hpsome.symm
    | none =>
      rw [rebuildStep_eq_none blob st hl]
      dsimp only
      rcases Nat.lt_or_ge p (offAt st.bvs i) with hpoff | hpoff
      · have hcur : st.cursor < offAt st.bvs i := lt_of_le_of_lt hc hpoff
        rw [if_pos hcur]
        refine ⟨st.nb.length + (p - st.cursor), ?_⟩
        have h1 := gap_byte_covered blob st (offAt st.bvs i) p hc hpoff
        rw [getElem?_append_ext _ (h1.trans hpsome)]
        exact hpsome.symm
      · -- p lies inside region i, which is copied verbatim (not replaced)
        set nb1 := if st.cursor < offAt st.bvs i then
            st.nb ++ listSlice blob st.cursor (offAt st.bvs i) else st.nb with hnb1
        refine ⟨nb1.length + (p - offAt st.bvs i), ?_⟩
        have hchunk : (listSlice blob (offAt st.bvs i)
            (offAt st.bvs i + lnAt st.bvs i))[p - offAt st.bvs i]? = blob[p]? := by
          rw [listSlice_getElem? blob _ _ _ (by omega)]
          have : offAt st.bvs i + (p - offAt st.bvs i) = p := by omega
          rw [this]
        have hlenchunk : p - offAt st.bvs i <
            (listSlice blob (offAt st.bvs i) (offAt st.bvs i + lnAt st.bvs i)).length := by
          rw [listSlice_length]
          omega
        have h2 : (pad4 (listSlice blob (offAt st.bvs i)
            (offAt st.bvs i + lnAt st.bvs i)))[p - offAt st.bvs i]? = blob[p]? := by
          rw [pad4_getElem? _ _ hlenchunk]
          exact hchunk
        rw [List.getElem?_append_right (by omega)]
        have harith : nb1.length + (p - offAt st.bvs i) - nb1.length =
            p - offAt st.bvs i := by omega
        rw [harith]
        exact h2

/-- Over the whole loop: any byte below the final cursor that is outside
every replaced region in the order is covered by the output. -/
theorem rebuildLoop_covers (blob : Blob) (repl : List (Nat × Blob)) (p : Nat)
    (hp : p < blob.length) :
    ∀ (order : List Nat) (st : RebuildState), order.Nodup →
    (∀ i ∈ order, (repl.lookup i).isSome = true →
        ¬ (offAt st.bvs i ≤ p ∧ p < offAt st.bvs i + lnAt st.bvs i)) →
    (p < st.cursor → ∃ q : Nat, st.nb[q]? = blob[p]?) →
    p < (rebuildLoop blob repl order st).cursor →
    ∃ q : Nat, (rebuildLoop blob repl order st).nb[q]? = blob[p]? := by
  intro order
  induction order with
  | nil => exact fun st _ _ hstart hlt => hstart hlt
  | cons i rest ih =>
    intro st hnd hfree hstart hlt
    rw [rebuildLoop] at hlt ⊢
    have hi : i ∉ rest := (List.nodup_cons.mp hnd).1
    refine ih (rebuildStep blob repl i st) (List.nodup_cons.mp hnd).2 ?_ ?_ hlt
    · intro i' hi' hsome
      have hne : i ≠ i' := fun h => hi (h ▸ hi')
      have hbv := rebuildStep_bvs_ne blob repl st hne
      rw [offAt_congr hbv, lnAt_congr hbv]
      exact hfree i' (List.mem_cons_of_mem i hi') hsome
    · exact rebuildStep_covers blob repl i st p hp
        (hfree i (List.mem_cons_self i rest)) hstart

/-! ### The gap between two consecutively processed regions is copied verbatim -/

theorem rebuildLoop_gap (blob : Blob) (repl : List (Nat × Blob)) :
    ∀ (a : List Nat) (i j : Nat) (b : List Nat) (st : RebuildState),
    (a ++ i :: j :: b).Nodup →
    (∀ x ∈ a ++ i :: j :: b, x < st.bvs.length) →
    endAt st.bvs i < offAt st.bvs j →
    offAt st.bvs j ≤ blob.length →
    ∃ c : Nat,
      offAt (rebuildLoop blob repl (a ++ i :: j :: b) st).bvs j =
        c + (offAt st.bvs j - endAt st.bvs i) ∧
      ∀ k, k < offAt st.bvs j - endAt st.bvs i →
        (rebuildLoop blob repl (a ++ i :: j :: b) st).nb[c + k]? =
          blob[endAt st.bvs i + k]? := by
  intro a
  induction a with
  | nil =>
    intro i j b st hnd hbound hgap hjlen
    rw [List.nil_append] at hnd hbound ⊢
    have hij : i ≠ j := by
      intro h
      exact (List.nodup_cons.mp hnd).1 (h ▸ List.mem_cons_self j b)
    have hjb : j ∉ b := (List.nodup_cons.mp (List.nodup_cons.mp hnd).2).1
    -- step i establishes cursor = endAt st.bvs i
    set st1 := rebuildStep blob repl i st with hst1
    have hcur1 : st1.cursor = endAt st.bvs i := rebuildStep_cursor blob repl i st
    have hbvj1 : st1.bvs[j]? = st.bvs[j]? := rebuildStep_bvs_ne blob repl st hij
    have hoffj1 : offAt st1.bvs j = offAt st.bvs j := offAt_congr hbvj1
    have hlnj1 : lnAt st1.bvs j = lnAt st.bvs j := lnAt_congr hbvj1
    have hjlt1 : j < st1.bvs.length := by
      rw [hst1, rebuildStep_bvs_length]
      exact hbound j (List.mem_cons_of_mem i (List.mem_cons_self j b))
    have hcurlt : st1.cursor < offAt st1.bvs j := by rw [hcur1, hoffj1]; exact hgap
    -- step j copies the gap and then writes region j's data at nb1.length
    have hmain : ∀ x : Option Nat,
        (rebuildStep blob repl j st1).bvs =
            st1.bvs.set j ⟨some (st1.nb ++
              listSlice blob st1.cursor (offAt st1.bvs j)).length, x⟩ →
        (∃ t : Blob, (rebuildStep blob repl j st1).nb =
            (st1.nb ++ listSlice blob st1.cursor (offAt st1.bvs j)) ++ t) →
        ∃ c : Nat,
          offAt (rebuildLoop blob repl (i :: j :: b) st).bvs j =
            c + (offAt st.bvs j - endAt st.bvs i) ∧
          ∀ k, k < offAt st.bvs j - endAt st.bvs i →
            (rebuildLoop blob repl (i :: j :: b) st).nb[c + k]? =
              blob[endAt st.bvs i + k]? := by
      intro x hbvs2 ⟨t, hnb2⟩
      have hslicelen : (listSlice blob st1.cursor (offAt st1.bvs j)).length =
          offAt st.bvs j - endAt st.bvs i := by
        rw [listSlice_length, hcur1, hoffj1]
        omega
      refine ⟨st1.nb.length, ?_, ?_⟩
      · have hres : (rebuildLoop blob repl (i :: j :: b) st).bvs[j]? =
            (rebuildStep blob repl j st1).bvs[j]? := by
          rw [rebuildLoop, rebuildLoop, ← hst1]
          exact rebuildLoop_bvs_not_mem blob repl b (rebuildStep blob repl j st1) j hjb
        rw [offAt_congr hres, hbvs2]
        have hset : offAt (st1.bvs.set j
            ⟨some (st1.nb ++ listSlice blob st1.cursor (offAt st1.bvs j)).length, x⟩) j =
            (st1.nb ++ listSlice blob st1.cursor (offAt st1.bvs j)).length := by
          simp [offAt, bvAt, List.getElem?_set_self hjlt1]
        rw [hset, List.length_append, hslicelen]
      · intro k hk
        have hsome : blob[endAt st.bvs i + k]? =
            some (blob.get ⟨endAt st.bvs i + k, by omega⟩) :=
          List.getElem?_eq_getElem (by omega)
        have h1 : (st1.nb ++ listSlice blob st1.cursor
            (offAt st1.bvs j))[st1.nb.length + k]? = blob[endAt st.bvs i + k]? := by
          rw [List.getElem?_append_right (by omega)]
          have harith : st1.nb.length + k - st1.nb.length = k := by omega
          rw [harith, listSlice_getElem? blob st1.cursor (offAt st1.bvs j) k
            (by rw [hcur1, hoffj1]; omega), hcur1]
        have h2 : (rebuildStep blob repl j st1).nb[st1.nb.length + k]? =
            some (blob.get ⟨endAt st.bvs i + k, by omega⟩) := by
          rw [hnb2]
          exact getElem?_append_ext t (h1.trans hsome)
        rw [rebuildLoop, rebuildLoop, ← hst1]
        rw [rebuildLoop_nb_ext blob repl b (rebuildStep blob repl j st1) h2]
        exact hsome.symm
    cases hl : repl.lookup j with
    | some data =>
      exact hmain (some data.length)
        (by rw [rebuildStep_eq_some blob st1 hl]; dsimp only; rw [if_pos hcurlt])
        ⟨pad4 data,
          by rw [rebuildStep_eq_some blob st1 hl]; dsimp only; rw [if_pos hcurlt]⟩
    | none =>
      exact hmain (some (lnAt st1.bvs j))
        (by rw [rebuildStep_eq_none blob st1 hl]; dsimp only; rw [if_pos hcurlt])
        ⟨pad4 (listSlice blob (offAt st1.bvs j) (offAt st1.bvs j + lnAt st1.bvs j)),
          by rw [rebuildStep_eq_none blob st1 hl]; dsimp only; rw [if_pos hcurlt]⟩
  | cons a0 a' ih =>
    intro i j b st hnd hbound hgap hjlen
    rw [List.cons_append] at hnd hbound ⊢
    have ha0 : a0 ∉ a' ++ i :: j :: b := (List.nodup_cons.mp hnd).1
    have ha0i : a0 ≠ i := by
      intro h
      subst h
      exact ha0 (List.mem_append_right a' (List.mem_cons_self a0 (j :: b)))
    have ha0j : a0 ≠ j := by
      intro h
      subst h
      exact ha0 (List.mem_append_right a'
        (List.mem_cons_of_mem i (List.mem_cons_self a0 b)))
    set st' := rebuildStep blob repl a0 st with hst'
    have hbvi : st'.bvs[i]? = st.bvs[i]? := rebuildStep_bvs_ne blob repl st ha0i
    have hbvj : st'.bvs[j]? = st.bvs[j]? := rebuildStep_bvs_ne blob repl st ha0j
    have hendi : endAt st'.bvs i = endAt st.bvs i := by
      unfold endAt
      rw [offAt_congr hbvi, lnAt_congr hbvi]
    have hoffj : offAt st'.bvs j = offAt st.bvs j := offAt_congr hbvj
    obtain ⟨c, hc1, hc2⟩ := ih i j b st' (List.nodup_cons.mp hnd).2
      (by
        intro x hx
        rw [hst', rebuildStep_bvs_length]
        exact hbound x (List.mem_cons_of_mem a0 hx))
      (by rw [hendi, hoffj]; exact hgap)
      (by rw [hoffj]; exact hjlen)
    rw [hendi, hoffj] at hc1 hc2
    exact ⟨c, by rw [rebuildLoop, ← hst']; exact hc1,
      by intro k hk; rw [rebuildLoop, ← hst']; exact hc2 k hk⟩

/-! ### Shape of a successful rebuild -/

theorem rebuild_eq_ok {gltf : GLTF} {blob : Blob} {repl : List (Nat × Blob)}
    {g' : GLTF} {nb : Blob}
    (h : rebuild_blob_with_replacements gltf blob repl = (g', Except.ok nb)) :
    gltf.bufferViews ≠ [] ∧
    g'.bufferViews =
      (rebuildLoop blob repl (sortIndices gltf.bufferViews)
        ⟨gltf.bufferViews, [], 0⟩).bvs ∧
    nb =
      (if (rebuildLoop blob repl (sortIndices gltf.bufferViews)
            ⟨gltf.bufferViews, [], 0⟩).cursor < blob.length then
        (rebuildLoop blob repl (sortIndices gltf.bufferViews)
            ⟨gltf.bufferViews, [], 0⟩).nb ++
          blob.drop (rebuildLoop blob repl (sortIndices gltf.bufferViews)
            ⟨gltf.bufferViews, [], 0⟩).cursor
      else (rebuildLoop blob repl (sortIndices gltf.bufferViews)
        ⟨gltf.bufferViews, [], 0⟩).nb) := by
  by_cases hbv : gltf.bufferViews = []
  · rw [rebuild_blob_with_replacements, if_pos hbv] at h
    exact absurd (congrArg Prod.snd h) (by simp)
  · rw [rebuild_blob_with_replacements, if_neg hbv] at h
    cases hbuf : gltf.buffers with
    | nil =>
      rw [hbuf] at h
      exact absurd (congrArg Prod.snd h) (by simp)
    | cons bb bs =>
      rw [hbuf] at h
      refine ⟨hbv, ?_, ?_⟩
      · have h1 := congrArg (fun z => z.1.bufferViews) h
        simpa using h1.symm
      · have h2 := congrArg Prod.snd h
        simpa using h2.symm

/-- C1: every byte of the original payload that is not inside a replaced
region's half-open range `[offset, offset+length)` appears byte-for-byte in
the rebuilt payload (possibly at another offset); and for two regions
adjacent in the sorted processing order and separated by a gap lying inside
the payload, the gap bytes sit verbatim in the output immediately before the
second region's new offset, equal to the gap bytes of the input, whatever
the replacements elsewhere are. -/
theorem rebuild_preserves_unreplaced_and_gap_bytes
    (gltf : GLTF) (blob : Blob) (repl : List (Nat × Blob)) (g' : GLTF) (nb : Blob)
    (hres : rebuild_blob_with_replacements gltf blob repl = (g', Except.ok nb)) :
    (∀ p, p < blob.length →
      (∀ i, i < gltf.bufferViews.length → (repl.lookup i).isSome = true →
        ¬ (offAt gltf.bufferViews i ≤ p ∧ p < endAt gltf.bufferViews i)) →
      ∃ q : Nat, nb[q]? = blob[p]?) ∧
    (∀ a i j b, sortIndices gltf.bufferViews = a ++ i :: j :: b →
      endAt gltf.bufferViews i < offAt gltf.bufferViews j →
      offAt gltf.bufferViews j ≤ blob.length →
      ∀ k, k < offAt gltf.bufferViews j - endAt gltf.bufferViews i →
        nb[offAt g'.bufferViews j -
            (offAt gltf.bufferViews j - endAt gltf.bufferViews i) + k]? =
          blob[endAt gltf.bufferViews i + k]?) := by
  obtain ⟨hbv, hgbvs, hnb⟩ := rebuild_eq_ok hres
  constructor
  · intro p hp hfree
    have hcov := rebuildLoop_covers blob repl p hp (sortIndices gltf.bufferViews)
      ⟨gltf.bufferViews, [], 0⟩ (sortIndices_nodup gltf.bufferViews)
      (fun i hi hsome => by
        have := hfree i (mem_sortIndices.mp hi) hsome
        unfold endAt at this
        exact this)
      (fun hlt => absurd hlt (by simp))
    by_cases hlt : p <
        (rebuildLoop blob repl (sortIndices gltf.bufferViews)
          ⟨gltf.bufferViews, [], 0⟩).cursor
    · obtain ⟨q, hq⟩ := hcov hlt
      have hsome : blob[p]? = some (blob.get ⟨p, hp⟩) := List.getElem?_eq_getElem hp
      refine ⟨q, ?_⟩
      rw [hnb]
      split
      · rw [getElem?_append_ext _ (hq.trans hsome)]
        exact hsome.symm
      · exact hq
    · push_neg at hlt
      rw [hnb, if_pos (by omega)]
      refine ⟨(rebuildLoop blob repl (sortIndices gltf.bufferViews)
          ⟨gltf.bufferViews, [], 0⟩).nb.length +
        (p - (rebuildLoop blob repl (sortIndices gltf.bufferViews)
          ⟨gltf.bufferViews, [], 0⟩).cursor), ?_⟩
      rw [List.getElem?_append_right (by omega)]
      have harith : (rebuildLoop blob repl (sortIndices gltf.bufferViews)
            ⟨gltf.bufferViews, [], 0⟩).nb.length +
          (p - (rebuildLoop blob repl (sortIndices gltf.bufferViews)
            ⟨gltf.bufferViews, [], 0⟩).cursor) -
          (rebuildLoop blob repl (sortIndices gltf.bufferViews)
            ⟨gltf.bufferViews, [], 0⟩).nb.length =
          p - (rebuildLoop blob repl (sortIndices gltf.bufferViews)
            ⟨gltf.bufferViews, [], 0⟩).cursor := by omega
      rw [harith, List.getElem?_drop]
      have : (rebuildLoop blob repl (sortIndices gltf.bufferViews)
            ⟨gltf.bufferViews, [], 0⟩).cursor +
          (p - (rebuildLoop blob repl (sortIndices gltf.bufferViews)
            ⟨gltf.bufferViews, [], 0⟩).cursor) = p := by omega
      rw [this]
  · intro a i j b horder hgap hjlen k hk
    have hnd : (a ++ i :: j :: b).Nodup := horder ▸ sortIndices_nodup gltf.bufferViews
    have hbound : ∀ x ∈ a ++ i :: j :: b,
        x < (RebuildState.mk gltf.bufferViews [] 0).bvs.length := fun x hx =>
      mem_sortIndices.mp (horder ▸ hx)
    obtain ⟨c, hc1, hc2⟩ := rebuildLoop_gap blob repl a i j b
      ⟨gltf.bufferViews, [], 0⟩ hnd hbound hgap hjlen
    rw [← horder] at hc1 hc2
    have hsome : blob[endAt gltf.bufferViews i + k]? =
        some (blob.get ⟨endAt gltf.bufferViews i + k, by omega⟩) :=
      List.getElem?_eq_getElem (by omega)
    have hoff : offAt g'.bufferViews j = c +
        (offAt gltf.bufferViews j - endAt gltf.bufferViews i) := by
      rw [hgbvs]
      exact hc1
    have hidx : offAt g'.bufferViews j -
        (offAt gltf.bufferViews j - endAt gltf.bufferViews i) + k = c + k := by
      omega
    rw [hidx, hnb]
    have h2 := hc2 k hk
    split
    · rw [getElem?_append_ext _ (h2.trans hsome)]
      exact hsome.symm
    · exact h2

/-- Witness for C1: at the concrete input, the gap byte at offset 2 survives
and the gap before region 1 is preserved verbatim. -/
theorem rebuild_preserves_unreplaced_and_gap_bytes_witness :
    (∃ q : Nat, nbC1w[q]? = blobC1w[2]?) ∧
    nbC1w[offAt gltfC1w'.bufferViews 1 -
        (offAt gltfC1w.bufferViews 1 - endAt gltfC1w.bufferViews 0) + 0]? =
      blobC1w[endAt gltfC1w.bufferViews 0 + 0]? := by
  have h := rebuild_preserves_unreplaced_and_gap_bytes gltfC1w blobC1w
    [(0, [9])] gltfC1w' nbC1w (by rfl)
  exact ⟨h.1 2 (by decide) (by decide),
    h.2 [] 0 1 [] (by decide) (by decide) (by decide) 0 (by decide)⟩

/-! ### The two structural checks of the rebuilder are not atomic -/

/-- The bufferViews left in the container by a rebuild that got past the
no-regions check are the fully rewritten table, whether or not a buffer
descriptor exists. -/
theorem rebuild_fst_bufferViews (gltf : GLTF) (blob : Blob)
    (repl : List (Nat × Blob)) (hne : gltf.bufferViews ≠ []) :
    (rebuild_blob_with_replacements gltf blob repl).1.bufferViews =
      (rebuildLoop blob repl (sortIndices gltf.bufferViews)
        ⟨gltf.bufferViews, [], 0⟩).bvs := by
  rw [rebuild_blob_with_replacements, if_neg hne]
  cases gltf.buffers <;> simp

/-- C9: the no-regions check fires before any mutation (the container is
returned untouched), while the no-buffers check fires only after the whole
payload is rebuilt and every region's byteOffset/byteLength has been
rewritten: on that error the region table equals the one a successful run
(same container plus a buffer descriptor) would produce. -/
theorem rebuild_checks_not_atomic (gltf : GLTF) (blob : Blob)
    (repl : List (Nat × Blob)) :
    (gltf.bufferViews = [] →
      rebuild_blob_with_replacements gltf blob repl =
        (gltf, Except.error "No bufferViews found.")) ∧
    (gltf.bufferViews ≠ [] → gltf.buffers = [] →
      (rebuild_blob_with_replacements gltf blob repl).2 =
          Except.error "No buffers found." ∧
      (rebuild_blob_with_replacements gltf blob repl).1.bufferViews =
        (rebuild_blob_with_replacements { gltf with buffers := [⟨0⟩] }
          blob repl).1.bufferViews) := by
  constructor
  · intro hbv
    rw [rebuild_blob_with_replacements, if_pos hbv]
  · intro hne hbuf
    constructor
    · rw [rebuild_blob_with_replacements, if_neg hne, hbuf]
    · rw [rebuild_fst_bufferViews gltf blob repl hne,
        rebuild_fst_bufferViews { gltf with buffers := [⟨0⟩] } blob repl hne]

/-- Witness for C9 at a concrete container with one region and no buffer
descriptor. -/
theorem rebuild_checks_not_atomic_witness :
    (rebuild_blob_with_replacements gltfC9w [1, 2, 3, 4, 5, 6] []).2 =
        Except.error "No buffers found." ∧
    (rebuild_blob_with_replacements gltfC9w [1, 2, 3, 4, 5, 6] []).1.bufferViews =
      (rebuild_blob_with_replacements { gltfC9w with buffers := [⟨0⟩] }
        [1, 2, 3, 4, 5, 6] []).1.bufferViews :=
  (rebuild_checks_not_atomic gltfC9w [1, 2, 3, 4, 5, 6] []).2 (by decide) (by decide)

/-! ### Alignment of the rebuilt offsets -/

theorem gapsAligned_congr {bvs bvs' : List BufferView} :
    ∀ (order : List Nat) (cursor : Nat),
    (∀ x ∈ order, bvs[x]? = bvs'[x]?) →
    gapsAligned bvs cursor order = gapsAligned bvs' cursor order := by
  intro order
  induction order with
  | nil => intro cursor _; rfl
  | cons i rest ih =>
    intro cursor h
    have hi := h i (List.mem_cons_self i rest)
    rw [gapsAligned, gapsAligned, offAt_congr hi, lnAt_congr hi,
      ih _ (fun x hx => h x (List.mem_cons_of_mem i hx))]

/-- Along the loop, if every gap actually copied is a multiple of 4 then
every region processed gets a 4-byte-aligned new offset. -/
theorem rebuildLoop_aligned (blob : Blob) (repl : List (Nat × Blob)) :
    ∀ (order : List Nat) (st : RebuildState), order.Nodup →
    (∀ x ∈ order, x < st.bvs.length) →
    (∀ x ∈ order, endAt st.bvs x ≤ blob.length) →
    st.cursor ≤ blob.length →
    st.nb.length % 4 = 0 →
    gapsAligned st.bvs st.cursor order = true →
    ∀ i ∈ order,
      ((bvAt (rebuildLoop blob repl order st).bvs i).byteOffset.getD 0) % 4 = 0 := by
  intro order
  induction order with
  | nil => intro st _ _ _ _ _ _ i hi; cases hi
  | cons i0 rest ih =>
    intro st hnd hlen hend hcur hnb hga i hi
    rw [gapsAligned, Bool.and_eq_true, Bool.or_eq_true, decide_eq_true_iff,
      decide_eq_true_iff] at hga
    have hi0rest : i0 ∉ rest := (List.nodup_cons.mp hnd).1
    -- the length of the output before region i0's data is a multiple of 4
    have hnb1 : (if st.cursor < offAt st.bvs i0 then
        st.nb ++ listSlice blob st.cursor (offAt st.bvs i0) else st.nb).length % 4
        = 0 := by
      split
      · rename_i hlt
        rcases hga.1 with hle | hmod
        · omega
        · have hofflen : offAt st.bvs i0 ≤ blob.length := by
            have := hend i0 (List.mem_cons_self i0 rest)
            unfold endAt at this
            omega
          rw [List.length_append, listSlice_length]
          omega
      · exact hnb
    -- the step writes that length as region i0's new offset
    have hstep_bvs : ∀ x : RebuildState, x = rebuildStep blob repl i0 st →
        x.bvs[i0]?.isSome ∧
        ((x.bvs[i0]?.getD ⟨none, none⟩).byteOffset.getD 0) % 4 = 0 ∧
        x.nb.length % 4 = 0 ∧ x.cursor = endAt st.bvs i0 := by
      intro x hx
      have hi0len : i0 < st.bvs.length := hlen i0 (List.mem_cons_self i0 rest)
      cases hl : repl.lookup i0 with
      | some data =>
        rw [rebuildStep_eq_some blob st hl] at hx
        subst hx
        refine ⟨by simp [List.getElem?_set_self hi0len], ?_, ?_, rfl⟩
        · simp only [List.getElem?_set_self hi0len, Option.getD_some]
          exact hnb1
        · simp only [List.length_append]
          have := pad4_length_mod data
          omega
      | none =>
        rw [rebuildStep_eq_none blob st hl] at hx
        subst hx
        refine ⟨by simp [List.getElem?_set_self hi0len], ?_, ?_, rfl⟩
        · simp only [List.getElem?_set_self hi0len, Option.getD_some]
          exact hnb1
        · simp only [List.length_append]
          have := pad4_length_mod (listSlice blob (offAt st.bvs i0)
            (offAt st.bvs i0 + lnAt st.bvs i0))
          omega
    obtain ⟨hsome1, hal1, hnb', hcur'⟩ := hstep_bvs _ rfl
    rcases List.mem_cons.mp hi with hii0 | hirest
    · -- i = i0: its entry is set now and untouched by the rest of the loop
      subst hii0
      rw [rebuildLoop]
      have hpres := rebuildLoop_bvs_not_mem blob repl rest
        (rebuildStep blob repl i st) i hi0rest
      rw [bvAt, hpres]
      exact hal1
    · -- i ∈ rest: recurse on the stepped state
      rw [rebuildLoop]
      refine ih (rebuildStep blob repl i0 st) (List.nodup_cons.mp hnd).2 ?_ ?_ ?_ hnb' ?_ i hirest
      · intro x hx
        rw [rebuildStep_bvs_length]
        exact hlen x (List.mem_cons_of_mem i0 hx)
      · intro x hx
        have hxne : i0 ≠ x := fun h => hi0rest (h ▸ hx)
        have hbv := rebuildStep_bvs_ne blob repl st hxne
        unfold endAt
        rw [offAt_congr hbv, lnAt_congr hbv]
        exact hend x (List.mem_cons_of_mem i0 hx)
      · rw [hcur']
        exact hend i0 (List.mem_cons_self i0 rest)
      · rw [hcur']
        have hcongr := gapsAligned_congr rest (endAt st.bvs i0)
          (fun x hx => rebuildStep_bvs_ne blob repl st
            (fun (h : i0 = x) => hi0rest (h ▸ hx)))
        rw [hcongr]
        unfold endAt
        exact hga.2

/-- C2 (amended): provided every region lies inside the payload, the first
region's offset (in sorted order) is a multiple of 4 and every inter-region
gap actually copied has a length that is a multiple of 4 — in particular
when the regions are contiguous — every region's new byteOffset in the
updated table is a multiple of 4. -/
theorem rebuild_offsets_aligned (gltf : GLTF) (blob : Blob)
    (repl : List (Nat × Blob)) (hne : gltf.bufferViews ≠ [])
    (hb : ∀ i, i < gltf.bufferViews.length → endAt gltf.bufferViews i ≤ blob.length)
    (hga : gapsAligned gltf.bufferViews 0 (sortIndices gltf.bufferViews) = true) :
    ∀ i, i < gltf.bufferViews.length →
      ((bvAt (rebuild_blob_with_replacements gltf blob repl).1.bufferViews i).byteOffset.getD 0)
        % 4 = 0 := by
  intro i hi
  rw [rebuild_fst_bufferViews gltf blob repl hne]
  exact rebuildLoop_aligned blob repl (sortIndices gltf.bufferViews)
    ⟨gltf.bufferViews, [], 0⟩ (sortIndices_nodup gltf.bufferViews)
    (fun x hx => mem_sortIndices.mp hx)
    (fun x hx => hb x (mem_sortIndices.mp hx))
    (by simp) (by simp) hga i (mem_sortIndices.mpr hi)

/-- C2 counterexample: a non-empty table of non-overlapping regions (the
claimed precondition) whose rebuild gives region 1 the new byteOffset 5,
which is not a multiple of 4 — the 1-byte gap between the regions is copied
verbatim after region 0's padded data. -/
theorem rebuild_offsets_aligned_cex :
    gltfC2cex.bufferViews ≠ [] ∧
    endAt gltfC2cex.bufferViews 0 ≤ offAt gltfC2cex.bufferViews 1 ∧
    (bvAt (rebuild_blob_with_replacements gltfC2cex [0, 0, 0] []).1.bufferViews 1).byteOffset
      = some 5 ∧
    ¬ (5 % 4 = 0) := by decide

/-- Witness for the amended C2 at a container with a 4-byte gap. -/
theorem rebuild_offsets_aligned_witness :
    ((bvAt (rebuild_blob_with_replacements gltfC2w (List.replicate 10 7) []).1.bufferViews 1).byteOffset.getD 0)
      % 4 = 0 :=
  rebuild_offsets_aligned gltfC2w (List.replicate 10 7) [] (by decide) (by decide)
    (by decide) 1 (by decide)

/-! ### Scenario A -/

/-- C4 counterexample: in Scenario A, region 0's padded end is 12, the gaps
are 6 and 9 bytes (not 11), and region 2's new offset is 31 — not region 0's
padded end plus a gap length under any reading (18, 21 or 23). -/
theorem scenarioA_offset_cex :
    (pad4 (listSlice blobA 0 10)).length = 12 ∧
    (bvAt rebuiltA.1.bufferViews 0).byteOffset = some 0 ∧
    (bvAt rebuiltA.1.bufferViews 2).byteOffset = some 31 ∧
    ¬ (31 = 12 + 6 ∨ 31 = 12 + 9 ∨ 31 = 12 + 11) := by decide

/-- C4 (amended): in Scenario A the rebuilt region 1 has logical byteLength
3 and physical stored size 4 (zero-padded), and region 2's new offset equals
region 1's padded end (18 + 4) plus the 9-byte original gap between regions
1 and 2, which is preserved exactly. -/
theorem scenarioA_amended :
    (bvAt rebuiltA.1.bufferViews 1).byteLength = some 3 ∧
    (bvAt rebuiltA.1.bufferViews 1).byteOffset = some 18 ∧
    (pad4 [9, 9, 9]).length = 4 ∧
    rebuiltA.2.toOption = some nbA ∧
    listSlice nbA 18 22 = [9, 9, 9, 0] ∧
    listSlice nbA 22 31 = listSlice blobA (endAt gltfA.bufferViews 1)
      (offAt gltfA.bufferViews 2) ∧
    (bvAt rebuiltA.1.bufferViews 2).byteOffset =
      some ((18 + (pad4 [9, 9, 9]).length) +
        (offAt gltfA.bufferViews 2 - endAt gltfA.bufferViews 1)) := by decide

/-! ### The target-size search stacks attempts when run in place -/

/-- C3: when the output path equals the input path (`--inplace`), the second
attempt re-reads the file just overwritten by the first attempt, so the
final output is the pipeline applied twice — once per attempt — to the
original, not the pipeline applied once with the second attempt's settings:
the attempts stack instead of each starting from the original container. -/
theorem inplace_search_stacks :
    ((optimize_vrm_to_target (fun b c => b ++ [c.webp_quality]) 0 0 0 12
        [⟨512, 1, 512, 45, 512, 70⟩, ⟨512, 2, 512, 45, 512, 70⟩]
        (fun _ => [])).2) 0 = [1, 2] ∧
    [1, 2] ≠
      (fun (b : Blob) (c : OptSettings) => b ++ [c.webp_quality]) []
        ⟨512, 2, 512, 45, 512, 70⟩ := by
  exact ⟨rfl, by decide⟩

/-! ### Characterization of the target-size search -/

theorem updateBest_spec (s0 : Nat) (c0 : OptSettings)
    (best : Option (Nat × OptSettings)) :
    ∃ um uc, updateBest s0 c0 best = some (um, uc) ∧ um ≤ s0 ∧
      ((uc = c0 ∧ um = s0) ∨ best = some (um, uc)) ∧
      (∀ bm bc, best = some (bm, bc) → um ≤ bm) := by
  cases best with
  | none => exact ⟨s0, c0, rfl, le_refl _, Or.inl ⟨rfl, rfl⟩, by simp⟩
  | some b =>
    obtain ⟨bs, bc⟩ := b
    by_cases h : s0 < bs
    · refine ⟨s0, c0, ?_, le_refl _, Or.inl ⟨rfl, rfl⟩, ?_⟩
      · simp [updateBest, if_pos h]
      · intro bm bc' hb
        injection hb with hb'
        injection hb' with h1 h2
        omega
    · refine ⟨bs, bc, ?_, by omega, Or.inr rfl, ?_⟩
      · simp [updateBest, if_neg h]
      · intro bm bc' hb
        injection hb with hb'
        injection hb' with h1 h2
        omega

theorem bestOf_spec (sizeFn : OptSettings → Nat) :
    ∀ (l : List OptSettings) (best : Option (Nat × OptSettings)) (m : Nat)
      (c : OptSettings), bestOf sizeFn best l = some (m, c) →
    (best = some (m, c) ∨ (c ∈ l ∧ sizeFn c = m)) ∧
    (∀ c' ∈ l, m ≤ sizeFn c') ∧
    (∀ bm bc, best = some (bm, bc) → m ≤ bm) := by
  intro l
  induction l with
  | nil =>
    intro best m c h
    rw [bestOf] at h
    refine ⟨Or.inl h, by simp, fun bm bc hb => ?_⟩
    rw [hb] at h
    injection h with h'
    injection h' with h1 h2
    omega
  | cons c0 rest ih =>
    intro best m c h
    rw [bestOf] at h
    obtain ⟨hmem, hmin, hbd⟩ := ih (updateBest (sizeFn c0) c0 best) m c h
    obtain ⟨um, uc, hu, hus, humem, hubd⟩ := updateBest_spec (sizeFn c0) c0 best
    have hmu : m ≤ um := hbd um uc hu
    refine ⟨?_, ?_, ?_⟩
    · rcases hmem with hm | ⟨hc, hs⟩
      · rw [hu] at hm
        injection hm with hm'
        injection hm' with h1 h2
        subst h1
        subst h2
        rcases humem with ⟨huc, hum⟩ | hbest
        · refine Or.inr ⟨?_, ?_⟩
          · rw [huc]
            exact List.mem_cons_self c0 rest
          · rw [huc, hum]
        · exact Or.inl hbest
      · exact Or.inr ⟨List.mem_cons_of_mem c0 hc, hs⟩
    · intro c' hc'
      rcases List.mem_cons.mp hc' with h0 | hr
      · subst h0
        omega
      · exact hmin c' hr
    · intro bm bc hb
      have := hubd bm bc hb
      omega

theorem optimize_go_characterization (pipeline : Blob → OptSettings → Blob)
    (inP outP target maxA : Nat) (hpaths : inP ≠ outP) (orig : Blob) :
    ∀ (cfgs : List OptSettings) (attempts : Nat)
      (best : Option (Nat × OptSettings)) (fs : Nat → Blob), fs inP = orig →
    ((∀ c, (cfgs.take (maxA - attempts)).find?
          (fun c => decide ((pipeline orig c).length ≤ target)) = some c →
        (optimize_vrm_to_target_go pipeline inP outP target maxA cfgs
          attempts best fs).1 =
          SearchOutcome.hit c (pipeline orig c).length) ∧
     ((cfgs.take (maxA - attempts)).find?
          (fun c => decide ((pipeline orig c).length ≤ target)) = none →
        (optimize_vrm_to_target_go pipeline inP outP target maxA cfgs
          attempts best fs).1 =
          SearchOutcome.exhausted (bestOf (fun c => (pipeline orig c).length) best
            (cfgs.take (maxA - attempts))))) := by
  intro cfgs
  induction cfgs with
  | nil =>
    intro attempts best fs _
    constructor
    · intro c hc
      simp at hc
    · intro _
      rw [List.take_nil, optimize_vrm_to_target_go, bestOf]
  | cons c0 rest ih =>
    intro attempts best fs hfs
    have hout : writeFS fs outP (pipeline (fs inP) c0) outP = pipeline orig c0 := by
      rw [hfs]
      simp [writeFS]
    have hfs' : writeFS fs outP (pipeline (fs inP) c0) inP = orig := by
      rw [← hfs]
      simp [writeFS, hpaths]
    by_cases hmax : maxA < attempts + 1
    · have htake : maxA - attempts = 0 := by omega
      rw [htake]
      constructor
      · intro c hc
        simp at hc
      · intro _
        rw [optimize_vrm_to_target_go, if_pos hmax, List.take_zero, bestOf]
    · have htake : maxA - attempts = (maxA - (attempts + 1)) + 1 := by omega
      rw [htake, List.take_succ_cons, List.find?_cons]
      rw [optimize_vrm_to_target_go, if_neg hmax]
      simp only [hout]
      by_cases hsz : (pipeline orig c0).length ≤ target
      · rw [if_pos hsz]
        constructor
        · intro c hc
          rw [decide_eq_true hsz] at hc
          injection hc with hc'
          subst hc'
          rfl
        · intro hc
          rw [decide_eq_true hsz] at hc
          exact absurd hc (by simp)
      · rw [if_neg hsz]
        have hd : decide ((pipeline orig c0).length ≤ target) = false :=
          decide_eq_false hsz
        rw [hd]
        obtain ⟨ih1, ih2⟩ := ih (attempts + 1)
          (updateBest (pipeline orig c0).length c0 best)
          (writeFS fs outP (pipeline (fs inP) c0)) hfs'
        constructor
        · intro c hc
          exact ih1 c hc
        · intro hc
          rw [ih2 hc, bestOf]

/-- C5: over the first `max_attempts` candidates in generated order, the
search reports success at the first candidate whose output size meets the
target (with that size), and if none does it reports the smallest observed
size together with the settings that produced it.  Stated for distinct
input and output paths, so that each attempt's output size is the size of
the pipeline applied to the original input under that attempt's settings. -/
theorem search_first_hit_or_best (pipeline : Blob → OptSettings → Blob)
    (inP outP target maxA : Nat) (cfgs : List OptSettings) (fs : Nat → Blob)
    (hpaths : inP ≠ outP) :
    (∀ c, (cfgs.take maxA).find?
        (fun c => decide ((pipeline (fs inP) c).length ≤ target)) = some c →
      (optimize_vrm_to_target pipeline inP outP target maxA cfgs fs).1 =
        SearchOutcome.hit c (pipeline (fs inP) c).length) ∧
    ((cfgs.take maxA).find?
        (fun c => decide ((pipeline (fs inP) c).length ≤ target)) = none →
      (optimize_vrm_to_target pipeline inP outP target maxA cfgs fs).1 =
        SearchOutcome.exhausted (bestOf (fun c => (pipeline (fs inP) c).length)
          none (cfgs.take maxA)) ∧
      ∀ m c, bestOf (fun c => (pipeline (fs inP) c).length) none (cfgs.take maxA)
          = some (m, c) →
        c ∈ cfgs.take maxA ∧ (pipeline (fs inP) c).length = m ∧
        ∀ c' ∈ cfgs.take maxA, m ≤ (pipeline (fs inP) c').length) := by
  have h := optimize_go_characterization pipeline inP outP target maxA hpaths
    (fs inP) cfgs 0 none fs rfl
  rw [Nat.sub_zero] at h
  refine ⟨h.1, fun hc => ⟨h.2 hc, fun m c hb => ?_⟩⟩
  obtain ⟨hmem, hmin, _⟩ :=
    bestOf_spec (fun c => (pipeline (fs inP) c).length) (cfgs.take maxA) none m c hb
  rcases hmem with hnone | ⟨hcl, hs⟩
  · cases hnone
  · exact ⟨hcl, hs, hmin⟩

/-- Witness for C5: with sizes 5 and 3 and target 3, the search stops at the
second candidate and reports success with its size. -/
theorem search_first_hit_or_best_witness :
    (optimize_vrm_to_target (fun _ c => List.replicate c.webp_quality 0) 0 1 3 12
      [⟨0, 5, 0, 0, 0, 0⟩, ⟨0, 3, 0, 0, 0, 0⟩] (fun _ => [])).1 =
      SearchOutcome.hit ⟨0, 3, 0, 0, 0, 0⟩ 3 := by
  have h := search_first_hit_or_best (fun _ c => List.replicate c.webp_quality 0)
    0 1 3 12 [⟨0, 5, 0, 0, 0, 0⟩, ⟨0, 3, 0, 0, 0, 0⟩] (fun _ => []) (by decide)
  exact h.1 ⟨0, 3, 0, 0, 0, 0⟩ (by rfl)

/-! ### Classification -/

/-- Membership in the normal-map image-index set is exactly reachability of
the image through some material's normal-map texture reference. -/
theorem mem_normal_indices_iff (gltf : GLTF) (idx : Nat) :
    idx ∈ get_normal_texture_image_indices gltf ↔
      ∃ m ∈ gltf.materials, ∃ nt, m.normalTexture = some nt ∧
        ∃ ti, nt.index = some ti ∧
          ∃ h : ti < gltf.textures.length,
            (gltf.textures.get ⟨ti, h⟩).source = some idx := by
  rw [get_normal_texture_image_indices]
  by_cases hm : gltf.materials = []
  · rw [if_pos hm]
    simp [hm]
  · rw [if_neg hm]
    by_cases ht : gltf.textures = []
    · rw [if_pos ht]
      simp [ht]
    · rw [if_neg ht]
      constructor
      · intro h
        obtain ⟨ti, hti, hsrc⟩ := List.mem_filterMap.mp h
        obtain ⟨m, hmm, hnt⟩ := List.mem_filterMap.mp hti
        obtain ⟨nt, hnt1, hnt2⟩ := Option.bind_eq_some.mp hnt
        by_cases hlt : ti < gltf.textures.length
        · rw [dif_pos hlt] at hsrc
          exact ⟨m, hmm, nt, hnt1, ti, hnt2, hlt, hsrc⟩
        · rw [dif_neg hlt] at hsrc
          cases hsrc
      · rintro ⟨m, hmm, nt, hnt1, ti, hnt2, hlt, hsrc⟩
        refine List.mem_filterMap.mpr ⟨ti, ?_, ?_⟩
        · exact List.mem_filterMap.mpr
            ⟨m, hmm, by rw [hnt1]; exact hnt2⟩
        · rw [dif_pos hlt]
          exact hsrc

/-- C6: an image is classified Thumbnail exactly when its lower-cased name
contains the substring "thumbnail"; otherwise NormalMap exactly when its
index is reachable from some material's normal-map texture reference;
otherwise General — the thumbnail check takes precedence over the normal-map
check, and classification is a pure function of the structure (classifying
twice gives the same result). -/
theorem classification_characterized (gltf : GLTF) (idx : Nat) (img : Image) :
    (classify_image gltf idx img = ImgClass.Thumbnail ↔
      strContainsSub (strLower (img.name.getD "")) "thumbnail" = true) ∧
    (classify_image gltf idx img = ImgClass.NormalMap ↔
      (strContainsSub (strLower (img.name.getD "")) "thumbnail" = false ∧
        ∃ m ∈ gltf.materials, ∃ nt, m.normalTexture = some nt ∧
          ∃ ti, nt.index = some ti ∧
            ∃ h : ti < gltf.textures.length,
              (gltf.textures.get ⟨ti, h⟩).source = some idx)) ∧
    (classify_image gltf idx img = ImgClass.General ↔
      (strContainsSub (strLower (img.name.getD "")) "thumbnail" = false ∧
        idx ∉ get_normal_texture_image_indices gltf)) ∧
    classify_image gltf idx img = classify_image gltf idx img := by
  rw [← mem_normal_indices_iff gltf idx]
  unfold classify_image
  by_cases hth : strContainsSub (strLower (img.name.getD "")) "thumbnail" = true
  · simp [hth]
  · by_cases hn : idx ∈ get_normal_texture_image_indices gltf
    · simp [hth, hn]
    · simp [hth, hn]

/-! ### Derived settings of the generated candidates -/

/-- C7 counterexample: with baseline quality 30 and baseline normal-map
quality 25, the first generated candidate has thumbnail quality equal to the
main quality (30, not below it) and normal-map quality 25 below the main
quality (not above it). -/
theorem candidate_derived_settings_cex :
    (candidate_settings_for_target 512 30 512 45 512 25)[0]? =
      some ⟨512, 30, 512, 30, 512, 25⟩ ∧
    ¬ ((⟨512, 30, 512, 30, 512, 25⟩ : OptSettings).thumb_quality <
        (⟨512, 30, 512, 30, 512, 25⟩ : OptSettings).webp_quality) ∧
    ¬ ((⟨512, 30, 512, 30, 512, 25⟩ : OptSettings).webp_quality <
        (⟨512, 30, 512, 30, 512, 25⟩ : OptSettings).normal_quality) := by
  decide

/-- C7 (amended): for every generated candidate pair (s, q), the thumbnail
resolution is at most max(256, s) — i.e. at most s subject to the 256 floor
— and at most the baseline thumbnail resolution; the normal-map resolution
is at most s; the thumbnail quality is at most max(30, q-10), hence strictly
below q whenever q > 30; and the normal-map quality is strictly above q
whenever the baseline normal-map quality exceeds q. -/
theorem candidate_derived_settings (sms swq stm stq snm snq : Nat)
    (cfg : OptSettings)
    (hc : cfg ∈ candidate_settings_for_target sms swq stm stq snm snq) :
    cfg.thumb_max ≤ max 256 cfg.max_size ∧
    cfg.thumb_max ≤ stm ∧
    cfg.normal_max ≤ cfg.max_size ∧
    cfg.thumb_quality ≤ max 30 (cfg.webp_quality - 10) ∧
    (30 < cfg.webp_quality → cfg.thumb_quality < cfg.webp_quality) ∧
    (cfg.webp_quality < snq → cfg.webp_quality < cfg.normal_quality) := by
  simp only [candidate_settings_for_target] at hc
  obtain ⟨s, _, hmem⟩ := List.mem_flatMap.mp hc
  obtain ⟨q, _, rfl⟩ := List.mem_map.mp hmem
  refine ⟨?_, ?_, ?_, ?_, ?_, ?_⟩ <;> dsimp only <;> omega

/-- Witness for the amended C7 at the default baselines 512/60, 512/45,
512/70: the first candidate has thumbnail quality 45 < 60 and normal-map
quality 65 > 60. -/
theorem candidate_derived_settings_witness :
    (⟨512, 60, 512, 45, 512, 65⟩ : OptSettings).thumb_quality <
      (⟨512, 60, 512, 45, 512, 65⟩ : OptSettings).webp_quality ∧
    (⟨512, 60, 512, 45, 512, 65⟩ : OptSettings).webp_quality <
      (⟨512, 60, 512, 45, 512, 65⟩ : OptSettings).normal_quality := by
  have h := candidate_derived_settings 512 60 512 45 512 70
    ⟨512, 60, 512, 45, 512, 65⟩ (by decide)
  exact ⟨h.2.2.2.2.1 (by decide), h.2.2.2.2.2 (by decide)⟩

/-! ### A non-replaced region's bytes are copied verbatim to its new offset -/

theorem rebuildLoop_chunk (blob : Blob) (repl : List (Nat × Blob)) :
    ∀ (order : List Nat) (st : RebuildState) (i : Nat), order.Nodup →
    i ∈ order → (∀ x ∈ order, x < st.bvs.length) →
    repl.lookup i = none →
    ∀ j, j < lnAt st.bvs i → offAt st.bvs i + j < blob.length →
    (rebuildLoop blob repl order st).nb[
        offAt (rebuildLoop blob repl order st).bvs i + j]? =
      blob[offAt st.bvs i + j]? := by
  intro order
  induction order with
  | nil => intro st i _ hi; cases hi
  | cons i0 rest ih =>
    intro st i hnd hi hbound hl j hj hjb
    have hi0rest : i0 ∉ rest := (List.nodup_cons.mp hnd).1
    rcases List.mem_cons.mp hi with hii0 | hirest
    · -- i is processed now; its chunk lands at the new offset and is kept
      subst hii0
      rw [rebuildLoop]
      have hilen : i < st.bvs.length := hbound i (List.mem_cons_self i rest)
      rw [rebuildStep_eq_none blob st hl]
      have hsome : blob[offAt st.bvs i + j]? =
          some (blob.get ⟨offAt st.bvs i + j, hjb⟩) :=
        List.getElem?_eq_getElem hjb
      set nb1 := if st.cursor < offAt st.bvs i then
          st.nb ++ listSlice blob st.cursor (offAt st.bvs i) else st.nb with hnb1
      have hoffres : offAt (rebuildLoop blob repl rest
          ⟨st.bvs.set i ⟨some nb1.length, some (lnAt st.bvs i)⟩,
            nb1 ++ pad4 (listSlice blob (offAt st.bvs i)
              (offAt st.bvs i + lnAt st.bvs i)),
            offAt st.bvs i + lnAt st.bvs i⟩).bvs i = nb1.length := by
        rw [offAt_congr (rebuildLoop_bvs_not_mem blob repl rest _ i hi0rest)]
        simp [offAt, bvAt, List.getElem?_set_self hilen]
      rw [hoffres]
      have hchunk : (pad4 (listSlice blob (offAt st.bvs i)
          (offAt st.bvs i + lnAt st.bvs i)))[j]? = blob[offAt st.bvs i + j]? := by
        rw [pad4_getElem?]
        · exact listSlice_getElem? blob _ _ _ (by omega)
        · rw [listSlice_length]
          omega
      have hstep : (nb1 ++ pad4 (listSlice blob (offAt st.bvs i)
          (offAt st.bvs i + lnAt st.bvs i)))[nb1.length + j]? =
          some (blob.get ⟨offAt st.bvs i + j, hjb⟩) := by
        rw [List.getElem?_append_right (by omega)]
        have harith : nb1.length + j - nb1.length = j := by omega
        rw [harith]
        exact hchunk.trans hsome
      rw [rebuildLoop_nb_ext blob repl rest _ hstep]
      exact hsome.symm
    · -- i is processed later; step i0 does not touch its entry
      rw [rebuildLoop]
      have hne : i0 ≠ i := fun h => hi0rest (h ▸ hirest)
      have hbv := rebuildStep_bvs_ne blob repl st hne
      have hoff := offAt_congr hbv
      have hln := lnAt_congr hbv
      rw [← hoff]
      exact ih (rebuildStep blob repl i0 st) i (List.nodup_cons.mp hnd).2 hirest
        (fun x hx => by
          rw [rebuildStep_bvs_length]
          exact hbound x (List.mem_cons_of_mem i0 hx))
        hl j (by rw [hln]; exact hj) (by rw [hoff]; exact hjb)

/-! ### The per-image loop on decode failures and missing regions -/

theorem processImagesLoop_cons_none {Pix : Type} (decode : Blob → Option Pix)
    (encode : Pix → Nat → Nat → Blob) (gltf : GLTF) (blob : Blob)
    (params : OptSettings) (idx : Nat) (img : Image) (rest : List Image)
    (repl : List (Nat × Blob)) (hbv : img.bufferView = none) :
    processImagesLoop decode encode gltf blob params idx (img :: rest) repl =
      match processImagesLoop decode encode gltf blob params (idx + 1) rest repl with
      | Except.error e => Except.error e
      | Except.ok (l, r) => Except.ok (img :: l, r) := by
  obtain ⟨obv, onm, omt⟩ := img
  cases hbv
  rfl

theorem processImagesLoop_cons_some {Pix : Type} (decode : Blob → Option Pix)
    (encode : Pix → Nat → Nat → Blob) (gltf : GLTF) (blob : Blob)
    (params : OptSettings) (idx : Nat) (img : Image) (rest : List Image)
    (repl : List (Nat × Blob)) (bvI : Nat) (hbv : img.bufferView = some bvI)
    (hlt : bvI < gltf.bufferViews.length) :
    processImagesLoop decode encode gltf blob params idx (img :: rest) repl =
      (match decode (listSlice blob (offAt gltf.bufferViews bvI)
          (offAt gltf.bufferViews bvI + lnAt gltf.bufferViews bvI)) with
       | none =>
           match processImagesLoop decode encode gltf blob params (idx + 1)
               rest repl with
           | Except.error e => Except.error e
           | Except.ok (l, r) => Except.ok (img :: l, r)
       | some pix =>
           match processImagesLoop decode encode gltf blob params (idx + 1) rest
               ((bvI, encode pix
                 (class_limit_quality params (classify_image gltf idx img)).1
                 (class_limit_quality params (classify_image gltf idx img)).2) ::
                   repl) with
           | Except.error e => Except.error e
           | Except.ok (l, r) =>
               Except.ok ({ img with mimeType := some "image/webp" } :: l, r)) := by
  obtain ⟨obv, onm, omt⟩ := img
  cases hbv
  rw [processImagesLoop]
  dsimp only
  rw [if_pos hlt]

theorem processImagesLoop_cons_oob {Pix : Type} (decode : Blob → Option Pix)
    (encode : Pix → Nat → Nat → Blob) (gltf : GLTF) (blob : Blob)
    (params : OptSettings) (idx : Nat) (img : Image) (rest : List Image)
    (repl : List (Nat × Blob)) (bvI : Nat) (hbv : img.bufferView = some bvI)
    (hlt : ¬ bvI < gltf.bufferViews.length) :
    processImagesLoop decode encode gltf blob params idx (img :: rest) repl =
      Except.error "IndexError: bufferView index out of range" := by
  obtain ⟨obv, onm, omt⟩ := img
  cases hbv
  rw [processImagesLoop]
  dsimp only
  rw [if_neg hlt]

theorem processImagesLoop_cons_decode_none {Pix : Type} (decode : Blob → Option Pix)
    (encode : Pix → Nat → Nat → Blob) (gltf : GLTF) (blob : Blob)
    (params : OptSettings) (idx : Nat) (img : Image) (rest : List Image)
    (repl : List (Nat × Blob)) (bvI : Nat) (hbv : img.bufferView = some bvI)
    (hlt : bvI < gltf.bufferViews.length)
    (hd : decode (listSlice blob (offAt gltf.bufferViews bvI)
      (offAt gltf.bufferViews bvI + lnAt gltf.bufferViews bvI)) = none) :
    processImagesLoop decode encode gltf blob params idx (img :: rest) repl =
      match processImagesLoop decode encode gltf blob params (idx + 1) rest repl with
      | Except.error e => Except.error e
      | Except.ok (l, r) => Except.ok (img :: l, r) := by
  rw [processImagesLoop_cons_some decode encode gltf blob params idx img rest repl
    bvI hbv hlt, hd]

theorem processImagesLoop_cons_decode_some {Pix : Type} (decode : Blob → Option Pix)
    (encode : Pix → Nat → Nat → Blob) (gltf : GLTF) (blob : Blob)
    (params : OptSettings) (idx : Nat) (img : Image) (rest : List Image)
    (repl : List (Nat × Blob)) (bvI : Nat) (pix : Pix)
    (hbv : img.bufferView = some bvI) (hlt : bvI < gltf.bufferViews.length)
    (hd : decode (listSlice blob (offAt gltf.bufferViews bvI)
      (offAt gltf.bufferViews bvI + lnAt gltf.bufferViews bvI)) = some pix) :
    processImagesLoop decode encode gltf blob params idx (img :: rest) repl =
      match processImagesLoop decode encode gltf blob params (idx + 1) rest
          ((bvI, encode pix
            (class_limit_quality params (classify_image gltf idx img)).1
            (class_limit_quality params (classify_image gltf idx img)).2) ::
              repl) with
      | Except.error e => Except.error e
      | Except.ok (l, r) =>
          Except.ok ({ img with mimeType := some "image/webp" } :: l, r) := by
  rw [processImagesLoop_cons_some decode encode gltf blob params idx img rest repl
    bvI hbv hlt, hd]

/-- If the bytes of region `bvI` fail to decode, no image can register a
replacement for `bvI`: any image referencing `bvI` reads those same bytes. -/
theorem processImagesLoop_lookup_none {Pix : Type} (decode : Blob → Option Pix)
    (encode : Pix → Nat → Nat → Blob) (gltf : GLTF) (blob : Blob)
    (params : OptSettings) (bvI : Nat)
    (hdec : decode (listSlice blob (offAt gltf.bufferViews bvI)
      (offAt gltf.bufferViews bvI + lnAt gltf.bufferViews bvI)) = none) :
    ∀ (imgs : List Image) (idx : Nat) (repl0 : List (Nat × Blob)),
    repl0.lookup bvI = none →
    ∀ l r, processImagesLoop decode encode gltf blob params idx imgs repl0 =
      Except.ok (l, r) → r.lookup bvI = none := by
  intro imgs
  induction imgs with
  | nil =>
    intro idx repl0 h0 l r hrun
    rw [processImagesLoop] at hrun
    injection hrun with h'
    have h2 : repl0 = r := congrArg Prod.snd h'
    rw [← h2]
    exact h0
  | cons img rest ih =>
    intro idx repl0 h0 l r hrun
    cases hbv : img.bufferView with
    | none =>
      rw [processImagesLoop_cons_none decode encode gltf blob params idx img rest
        repl0 hbv] at hrun
      cases hres : processImagesLoop decode encode gltf blob params (idx + 1)
          rest repl0 with
      | error e => rw [hres] at hrun; cases hrun
      | ok p =>
        obtain ⟨l', r'⟩ := p
        rw [hres] at hrun
        injection hrun with h'
        have h2 : r' = r := congrArg Prod.snd h'
        rw [← h2]
        exact ih (idx + 1) repl0 h0 l' r' hres
    | some bvJ =>
      by_cases hlt : bvJ < gltf.bufferViews.length
      · cases hd : decode (listSlice blob (offAt gltf.bufferViews bvJ)
            (offAt gltf.bufferViews bvJ + lnAt gltf.bufferViews bvJ)) with
        | none =>
          rw [processImagesLoop_cons_decode_none decode encode gltf blob params idx
            img rest repl0 bvJ hbv hlt hd] at hrun
          cases hres : processImagesLoop decode encode gltf blob params (idx + 1)
              rest repl0 with
          | error e => rw [hres] at hrun; cases hrun
          | ok p =>
            obtain ⟨l', r'⟩ := p
            rw [hres] at hrun
            injection hrun with h'
            have h2 : r' = r := congrArg Prod.snd h'
            rw [← h2]
            exact ih (idx + 1) repl0 h0 l' r' hres
        | some pix =>
          rw [processImagesLoop_cons_decode_some decode encode gltf blob params idx
            img rest repl0 bvJ pix hbv hlt hd] at hrun
          have hJI : bvJ ≠ bvI := by
            intro h
            rw [h, hdec] at hd
            cases hd
          cases hres : processImagesLoop decode encode gltf blob params (idx + 1)
              rest ((bvJ, encode pix
                (class_limit_quality params (classify_image gltf idx img)).1
                (class_limit_quality params (classify_image gltf idx img)).2) ::
                  repl0) with
          | error e => rw [hres] at hrun; cases hrun
          | ok p =>
            obtain ⟨l', r'⟩ := p
            rw [hres] at hrun
            injection hrun with h'
            have h2 : r' = r := congrArg Prod.snd h'
            rw [← h2]
            refine ih (idx + 1) _ ?_ l' r' hres
            rw [List.lookup]
            have hbeq : (bvI == bvJ) = false := beq_false_of_ne (Ne.symm hJI)
            rw [hbeq]
            exact h0
      · rw [processImagesLoop_cons_oob decode encode gltf blob params idx img rest
          repl0 bvJ hbv hlt] at hrun
        cases hrun

/-- An image whose region reference is missing, or whose bytes fail to
decode, comes out of the loop as exactly its original record (same MIME
type), at its original position. -/
theorem processImagesLoop_skips_failures {Pix : Type} (decode : Blob → Option Pix)
    (encode : Pix → Nat → Nat → Blob) (gltf : GLTF) (blob : Blob)
    (params : OptSettings) :
    ∀ (imgs : List Image) (k idx : Nat) (repl0 : List (Nat × Blob)) (img : Image),
    imgs[k]? = some img →
    (img.bufferView = none ∨
      ∃ bvI, img.bufferView = some bvI ∧
        decode (listSlice blob (offAt gltf.bufferViews bvI)
          (offAt gltf.bufferViews bvI + lnAt gltf.bufferViews bvI)) = none) →
    ∀ l r, processImagesLoop decode encode gltf blob params idx imgs repl0 =
      Except.ok (l, r) → l[k]? = some img := by
  intro imgs
  induction imgs with
  | nil =>
    intro k idx repl0 img hk
    simp at hk
  | cons img0 rest ih =>
    intro k idx repl0 img hk hcond l r hrun
    cases k with
    | zero =>
      rw [List.getElem?_cons_zero] at hk
      injection hk with hk'
      subst hk'
      rcases hcond with hbv | ⟨bvI, hbv, hdec⟩
      · rw [processImagesLoop_cons_none decode encode gltf blob params idx img0 rest
          repl0 hbv] at hrun
        cases hres : processImagesLoop decode encode gltf blob params (idx + 1)
            rest repl0 with
        | error e => rw [hres] at hrun; cases hrun
        | ok p =>
          obtain ⟨l', r'⟩ := p
          rw [hres] at hrun
          injection hrun with h'
          have h1 : img0 :: l' = l := congrArg Prod.fst h'
          rw [← h1, List.getElem?_cons_zero]
      · by_cases hlt : bvI < gltf.bufferViews.length
        · rw [processImagesLoop_cons_decode_none decode encode gltf blob params idx
            img0 rest repl0 bvI hbv hlt hdec] at hrun
          cases hres : processImagesLoop decode encode gltf blob params (idx + 1)
              rest repl0 with
          | error e => rw [hres] at hrun; cases hrun
          | ok p =>
            obtain ⟨l', r'⟩ := p
            rw [hres] at hrun
            injection hrun with h'
            have h1 : img0 :: l' = l := congrArg Prod.fst h'
            rw [← h1, List.getElem?_cons_zero]
        · rw [processImagesLoop_cons_oob decode encode gltf blob params idx img0 rest
            repl0 bvI hbv hlt] at hrun
          cases hrun
    | succ k' =>
      rw [List.getElem?_cons_succ] at hk
      cases hbv0 : img0.bufferView with
      | none =>
        rw [processImagesLoop_cons_none decode encode gltf blob params idx img0 rest
          repl0 hbv0] at hrun
        cases hres : processImagesLoop decode encode gltf blob params (idx + 1)
            rest repl0 with
        | error e => rw [hres] at hrun; cases hrun
        | ok p =>
          obtain ⟨l', r'⟩ := p
          rw [hres] at hrun
          injection hrun with h'
          have h1 : img0 :: l' = l := congrArg Prod.fst h'
          rw [← h1, List.getElem?_cons_succ]
          exact ih k' (idx + 1) repl0 img hk hcond l' r' hres
      | some bvJ =>
        by_cases hlt : bvJ < gltf.bufferViews.length
        · cases hd : decode (listSlice blob (offAt gltf.bufferViews bvJ)
              (offAt gltf.bufferViews bvJ + lnAt gltf.bufferViews bvJ)) with
          | none =>
            rw [processImagesLoop_cons_decode_none decode encode gltf blob params idx
              img0 rest repl0 bvJ hbv0 hlt hd] at hrun
            cases hres : processImagesLoop decode encode gltf blob params (idx + 1)
                rest repl0 with
            | error e => rw [hres] at hrun; cases hrun
            | ok p =>
              obtain ⟨l', r'⟩ := p
              rw [hres] at hrun
              injection hrun with h'
              have h1 : img0 :: l' = l := congrArg Prod.fst h'
              rw [← h1, List.getElem?_cons_succ]
              exact ih k' (idx + 1) repl0 img hk hcond l' r' hres
          | some pix =>
            rw [processImagesLoop_cons_decode_some decode encode gltf blob params idx
              img0 rest repl0 bvJ pix hbv0 hlt hd] at hrun
            cases hres : processImagesLoop decode encode gltf blob params (idx + 1)
                rest ((bvJ, encode pix
                  (class_limit_quality params (classify_image gltf idx img0)).1
                  (class_limit_quality params (classify_image gltf idx img0)).2) ::
                    repl0) with
            | error e => rw [hres] at hrun; cases hrun
            | ok p =>
              obtain ⟨l', r'⟩ := p
              rw [hres] at hrun
              injection hrun with h'
              have h1 : { img0 with mimeType := some "image/webp" } :: l' = l :=
                congrArg Prod.fst h'
              rw [← h1, List.getElem?_cons_succ]
              exact ih k' (idx + 1) _ img hk hcond l' r' hres
        · rw [processImagesLoop_cons_oob decode encode gltf blob params idx img0 rest
            repl0 bvJ hbv0 hlt] at hrun
          cases hrun

/-- C8: an image whose embedded bytes fail to decode is left untouched while
processing continues: its region index is absent from the replacement set,
its image record (MIME type included) is unchanged in the output image list,
and the rebuilder copies its region bytes verbatim to the region's new
offset. -/
theorem decode_failure_leaves_image_untouched {Pix : Type}
    (decode : Blob → Option Pix) (encode : Pix → Nat → Nat → Blob)
    (gltf : GLTF) (blob : Blob) (params : OptSettings) (k bvI : Nat) (img : Image)
    (hk : gltf.images[k]? = some img)
    (hbv : img.bufferView = some bvI)
    (hdec : decode (listSlice blob (offAt gltf.bufferViews bvI)
      (offAt gltf.bufferViews bvI + lnAt gltf.bufferViews bvI)) = none)
    (imgs' : List Image) (repl : List (Nat × Blob))
    (hrun : processImagesLoop decode encode gltf blob params 0 gltf.images [] =
      Except.ok (imgs', repl)) :
    repl.lookup bvI = none ∧
    imgs'[k]? = some img ∧
    ∀ g2 nb, rebuild_blob_with_replacements { gltf with images := imgs' } blob repl
        = (g2, Except.ok nb) →
      bvI < gltf.bufferViews.length →
      ∀ j, j < lnAt gltf.bufferViews bvI →
        offAt gltf.bufferViews bvI + j < blob.length →
        nb[offAt g2.bufferViews bvI + j]? =
          blob[offAt gltf.bufferViews bvI + j]? := by
  have hlook : repl.lookup bvI = none :=
    processImagesLoop_lookup_none decode encode gltf blob params bvI hdec
      gltf.images 0 [] rfl imgs' repl hrun
  refine ⟨hlook, ?_, ?_⟩
  · exact processImagesLoop_skips_failures decode encode gltf blob params
      gltf.images k 0 [] img hk (Or.inr ⟨bvI, hbv, hdec⟩) imgs' repl hrun
  · intro g2 nb hreb hlen j hj hjb
    obtain ⟨_, hgbvs, hnb⟩ := rebuild_eq_ok hreb
    have hbvs_eq : ({ gltf with images := imgs' } : GLTF).bufferViews =
        gltf.bufferViews := rfl
    rw [hbvs_eq] at hgbvs hnb
    have hchunk := rebuildLoop_chunk blob repl (sortIndices gltf.bufferViews)
      ⟨gltf.bufferViews, [], 0⟩ bvI (sortIndices_nodup gltf.bufferViews)
      (mem_sortIndices.mpr hlen) (fun x hx => mem_sortIndices.mp hx) hlook
      j hj hjb
    have hsome : blob[offAt gltf.bufferViews bvI + j]? =
        some (blob.get ⟨offAt gltf.bufferViews bvI + j, hjb⟩) :=
      List.getElem?_eq_getElem hjb
    rw [hgbvs, hnb]
    split
    · rw [getElem?_append_ext _ (hchunk.trans hsome)]
      exact hsome.symm
    · exact hchunk

/-- Witness for C8 at a concrete container: the single image's region `[0,2)`
fails to decode; the replacement set is empty, the image is unchanged, and
the rebuilt payload holds the original region bytes at its new offset. -/
theorem decode_failure_leaves_image_untouched_witness :
    ([] : List (Nat × Blob)).lookup 0 = none ∧
    gltfC8w.images[0]? = some ⟨some 0, some "img", some "image/png"⟩ ∧
    nbC8w[offAt gltfC8w'.bufferViews 0 + 0]? =
      ([5, 6, 7] : Blob)[offAt gltfC8w.bufferViews 0 + 0]? := by
  have h := decode_failure_leaves_image_untouched
    (fun _ => (none : Option Unit)) (fun _ _ _ => []) gltfC8w [5, 6, 7]
    ⟨512, 60, 512, 45, 512, 70⟩ 0 0 ⟨some 0, some "img", some "image/png"⟩
    (by rfl) (by rfl) (by rfl) gltfC8w.images [] (by rfl)
  exact ⟨h.1, h.2.1,
    h.2.2 gltfC8w' nbC8w (by rfl) (by decide) 0 (by decide) (by decide)⟩

/-- C10: processing a container that declares no images fails fatally with
the structural error, while an image that has no region reference is
silently skipped: the loop keeps its record (MIME type included) unchanged
at its position, and the image contributes nothing — the loop's result on
`img :: rest` is the result on `rest` with `img` prepended unchanged and the
same replacement set, with no decode or re-encode for `img`. -/
theorem no_images_fatal_and_no_region_skipped {Pix : Type}
    (decode : Blob → Option Pix) (encode : Pix → Nat → Nat → Blob)
    (gltf : GLTF) (blob : Blob) (params : OptSettings) :
    (gltf.images = [] →
      optimize_vrm_core decode encode gltf blob params =
        Except.error "No images found in the model.") ∧
    (∀ (k : Nat) (img : Image), gltf.images[k]? = some img →
      img.bufferView = none →
      ∀ imgs' repl,
        processImagesLoop decode encode gltf blob params 0 gltf.images [] =
          Except.ok (imgs', repl) →
        imgs'[k]? = some img) ∧
    (∀ (idx : Nat) (img : Image) (rest : List Image)
      (repl0 : List (Nat × Blob)), img.bufferView = none →
      processImagesLoop decode encode gltf blob params idx (img :: rest) repl0 =
        (processImagesLoop decode encode gltf blob params (idx + 1) rest
          repl0).map (fun p => (img :: p.1, p.2))) := by
  refine ⟨?_, ?_, ?_⟩
  · intro hni
    rw [optimize_vrm_core, if_pos hni]
  · intro k img hk hbv imgs' repl hrun
    exact processImagesLoop_skips_failures decode encode gltf blob params
      gltf.images k 0 [] img hk (Or.inl hbv) imgs' repl hrun
  · intro idx img rest repl0 hbv
    rw [processImagesLoop_cons_none decode encode gltf blob params idx img rest
      repl0 hbv]
    cases processImagesLoop decode encode gltf blob params (idx + 1) rest repl0 with
    | error e => rfl
    | ok p => obtain ⟨l, r⟩ := p; rfl

/-- Witness for C10: a container with no images aborts with the structural
error, and a container whose single image lacks a region reference returns
that image unchanged. -/
theorem no_images_fatal_and_no_region_skipped_witness :
    optimize_vrm_core (fun _ => (none : Option Unit)) (fun _ _ _ => [])
        gltfC10a [] ⟨512, 60, 512, 45, 512, 70⟩ =
      Except.error "No images found in the model." ∧
    gltfC10b.images[0]? = some ⟨none, some "pic", some "image/png"⟩ := by
  have h1 := (no_images_fatal_and_no_region_skipped
    (fun _ => (none : Option Unit)) (fun _ _ _ => []) gltfC10a []
    ⟨512, 60, 512, 45, 512, 70⟩).1 rfl
  have h2 := (no_images_fatal_and_no_region_skipped
    (fun _ => (none : Option Unit)) (fun _ _ _ => []) gltfC10b []
    ⟨512, 60, 512, 45, 512, 70⟩).2.1 0 ⟨none, some "pic", some "image/png"⟩
    (by rfl) (by rfl) gltfC10b.images [] (by rfl)
  exact ⟨h1, h2⟩

end VrmOpt
